import Mathlib

/-!
Verification of the authentication/session core of the cown backend.

The development shallowly embeds the relevant JavaScript source:

* `src/src/services/authService.js` — the field cipher (`cryptoMethods.aesIGE`,
  an AES-256-CBC cipher with a random IV, hex encoded as `ivHex ++ ":" ++ ctHex`),
  `encryptUserData` / `decryptUserData`, `storeUserInMySQL`, `register`,
  `cacheUserSession` and `verifySession`;
* `src/middlewares/authMiddleware.js` — the `requireAuth` access guard;
* `UserService.updateProfile` together with `UserRepository.update`.

Byte strings are `List Nat` with every element `< 256` (the predicate `Bytes`);
JavaScript strings are modelled as Lean `String`s, a plaintext passed to the
cipher is represented by its byte sequence.  The AES-256 block cipher is
implemented in full (S-box from the field inverse and affine map, 14 rounds,
key schedule per FIPS-197); randomness (IVs, generated keys, bcrypt digests,
session tokens, `Math.random` draws) is passed in explicitly as parameters.
-/

set_option maxRecDepth 40000
set_option linter.unusedVariables false

namespace Cown

/-- Lowercase hexadecimal digit characters as produced by Node's
`Buffer.toString('hex')`: `0..9` then `a..f` (character codes arithmetic). -/
def hexDigit (n : Nat) : Char :=
  if n < 10 then Char.ofNat (48 + n) else Char.ofNat (87 + n % 16)

/-- Value of a hexadecimal digit character as `Buffer.from(str, 'hex')`
reads it (digits, lowercase and uppercase letters), `none` for a non-hex
character. -/
def hexDigitVal (c : Char) : Option Nat :=
  if 48 ≤ c.toNat ∧ c.toNat ≤ 57 then some (c.toNat - 48)
  else if 97 ≤ c.toNat ∧ c.toNat ≤ 102 then some (c.toNat - 87)
  else if 65 ≤ c.toNat ∧ c.toNat ≤ 70 then some (c.toNat - 55)
  else none

/-- Hex encoding of a byte sequence (`Buffer.toString('hex')`). -/
def hexEncode : List Nat → List Char
  | [] => []
  | b :: rest => hexDigit (b / 16) :: hexDigit (b % 16) :: hexEncode rest

/-- Hex decoding of a character sequence (`Buffer.from(str, 'hex')`); Node
truncates at the first invalid pair and drops a trailing odd digit. -/
def hexDecode : List Char → List Nat
  | c1 :: c2 :: rest =>
    match hexDigitVal c1, hexDigitVal c2 with
    | some hi, some lo => (16 * hi + lo) :: hexDecode rest
    | _, _ => []
  | _ => []

/-- Multiplication by `x` in GF(2^8) with the AES reduction polynomial
`x^8 + x^4 + x^3 + x + 1` (`0x11b = 283`). -/
def xtime (b : Nat) : Nat := if b < 128 then 2 * b else (2 * b) ^^^ 283

/-- Shift-and-add loop for GF(2^8) multiplication, `n` remaining bits. -/
def gmulAux : Nat → Nat → Nat → Nat
  | 0, _, _ => 0
  | n + 1, a, b => (if b % 2 = 1 then a else 0) ^^^ gmulAux n (xtime a) (b / 2)

/-- Multiplication in GF(2^8). -/
def gmul (a b : Nat) : Nat := gmulAux 8 a b

/-- Multiplicative inverse in GF(2^8), computed as `b ^ 254` (and `0 ↦ 0`). -/
def ginv (b : Nat) : Nat :=
  let b2 := gmul b b
  let b4 := gmul b2 b2
  let b8 := gmul b4 b4
  let b16 := gmul b8 b8
  let b32 := gmul b16 b16
  let b64 := gmul b32 b32
  let b128 := gmul b64 b64
  gmul b128 (gmul b64 (gmul b32 (gmul b16 (gmul b8 (gmul b4 b2)))))

/-- Rotate an 8-bit value left by one position. -/
def rotl1 (b : Nat) : Nat := ((2 * b) % 256) ^^^ (b / 128)

/-- Affine transformation of the AES S-box (FIPS-197 §5.1.1). -/
def affineMap (b : Nat) : Nat :=
  b ^^^ rotl1 b ^^^ rotl1 (rotl1 b) ^^^ rotl1 (rotl1 (rotl1 b)) ^^^
    rotl1 (rotl1 (rotl1 (rotl1 b))) ^^^ 99

/-- The AES S-box: field inverse followed by the affine transformation. -/
def sbox (b : Nat) : Nat := affineMap (ginv b)

/-- Inverse of the S-box affine transformation. -/
def invAffineMap (b : Nat) : Nat :=
  rotl1 b ^^^ rotl1 (rotl1 (rotl1 b)) ^^^
    rotl1 (rotl1 (rotl1 (rotl1 (rotl1 (rotl1 b))))) ^^^ 5

/-- The inverse AES S-box. -/
def invSbox (b : Nat) : Nat := ginv (invAffineMap b)

/-- AES state: 16 bytes in column-major order (byte `4*c + r` is row `r`,
column `c`). -/
structure AESState where
  s0 : Nat
  s1 : Nat
  s2 : Nat
  s3 : Nat
  s4 : Nat
  s5 : Nat
  s6 : Nat
  s7 : Nat
  s8 : Nat
  s9 : Nat
  s10 : Nat
  s11 : Nat
  s12 : Nat
  s13 : Nat
  s14 : Nat
  s15 : Nat
deriving DecidableEq

/-- Load a 16-byte block into an AES state. -/
def toState : List Nat → AESState
  | [b0, b1, b2, b3, b4, b5, b6, b7, b8, b9, b10, b11, b12, b13, b14, b15] =>
    ⟨b0, b1, b2, b3, b4, b5, b6, b7, b8, b9, b10, b11, b12, b13, b14, b15⟩
  | _ => ⟨0, 0, 0, 0, 0, 0, 0, 0, 0, 0, 0, 0, 0, 0, 0, 0⟩

/-- Serialize an AES state back to its 16 bytes. -/
def stateToList (st : AESState) : List Nat :=
  [st.s0, st.s1, st.s2, st.s3, st.s4, st.s5, st.s6, st.s7,
   st.s8, st.s9, st.s10, st.s11, st.s12, st.s13, st.s14, st.s15]

/-- SubBytes step. -/
def subBytes (st : AESState) : AESState :=
  ⟨sbox st.s0, sbox st.s1, sbox st.s2, sbox st.s3, sbox st.s4, sbox st.s5, sbox st.s6, sbox st.s7,
   sbox st.s8, sbox st.s9, sbox st.s10, sbox st.s11, sbox st.s12, sbox st.s13, sbox st.s14,
   sbox st.s15⟩

/-- InvSubBytes step. -/
def invSubBytes (st : AESState) : AESState :=
  ⟨invSbox st.s0, invSbox st.s1, invSbox st.s2, invSbox st.s3, invSbox st.s4, invSbox st.s5,
   invSbox st.s6, invSbox st.s7, invSbox st.s8, invSbox st.s9, invSbox st.s10, invSbox st.s11,
   invSbox st.s12, invSbox st.s13, invSbox st.s14, invSbox st.s15⟩

/-- ShiftRows step (row `r` rotated left by `r`). -/
def shiftRows (st : AESState) : AESState :=
  ⟨st.s0, st.s5, st.s10, st.s15,
   st.s4, st.s9, st.s14, st.s3,
   st.s8, st.s13, st.s2, st.s7,
   st.s12, st.s1, st.s6, st.s11⟩

/-- InvShiftRows step. -/
def invShiftRows (st : AESState) : AESState :=
  ⟨st.s0, st.s13, st.s10, st.s7,
   st.s4, st.s1, st.s14, st.s11,
   st.s8, st.s5, st.s2, st.s15,
   st.s12, st.s9, st.s6, st.s3⟩

/-- Multiplication by `0x03` in GF(2^8). -/
def x3 (b : Nat) : Nat := xtime b ^^^ b

/-- Multiplication by `0x04` in GF(2^8). -/
def x4 (b : Nat) : Nat := xtime (xtime b)

/-- Multiplication by `0x08` in GF(2^8). -/
def x8 (b : Nat) : Nat := xtime (xtime (xtime b))

/-- Multiplication by `0x09` in GF(2^8). -/
def m9 (b : Nat) : Nat := x8 b ^^^ b

/-- Multiplication by `0x0b` in GF(2^8). -/
def m11 (b : Nat) : Nat := x8 b ^^^ (xtime b ^^^ b)

/-- Multiplication by `0x0d` in GF(2^8). -/
def m13 (b : Nat) : Nat := x8 b ^^^ (x4 b ^^^ b)

/-- Multiplication by `0x0e` in GF(2^8). -/
def m14 (b : Nat) : Nat := x8 b ^^^ (x4 b ^^^ xtime b)

/-- Row 0 of the MixColumns matrix `[2 3 1 1]`. -/
def mc0 (a b c d : Nat) : Nat := xtime a ^^^ (x3 b ^^^ (c ^^^ d))

/-- Row 1 of the MixColumns matrix `[1 2 3 1]`. -/
def mc1 (a b c d : Nat) : Nat := a ^^^ (xtime b ^^^ (x3 c ^^^ d))

/-- Row 2 of the MixColumns matrix `[1 1 2 3]`. -/
def mc2 (a b c d : Nat) : Nat := a ^^^ (b ^^^ (xtime c ^^^ x3 d))

/-- Row 3 of the MixColumns matrix `[3 1 1 2]`. -/
def mc3 (a b c d : Nat) : Nat := x3 a ^^^ (b ^^^ (c ^^^ xtime d))

/-- Row 0 of the InvMixColumns matrix `[14 11 13 9]`. -/
def im0 (a b c d : Nat) : Nat := m14 a ^^^ (m11 b ^^^ (m13 c ^^^ m9 d))

/-- Row 1 of the InvMixColumns matrix `[9 14 11 13]`. -/
def im1 (a b c d : Nat) : Nat := m9 a ^^^ (m14 b ^^^ (m11 c ^^^ m13 d))

/-- Row 2 of the InvMixColumns matrix `[13 9 14 11]`. -/
def im2 (a b c d : Nat) : Nat := m13 a ^^^ (m9 b ^^^ (m14 c ^^^ m11 d))

/-- Row 3 of the InvMixColumns matrix `[11 13 9 14]`. -/
def im3 (a b c d : Nat) : Nat := m11 a ^^^ (m13 b ^^^ (m9 c ^^^ m14 d))

/-- MixColumns step. -/
def mixColumns (st : AESState) : AESState :=
  ⟨mc0 st.s0 st.s1 st.s2 st.s3, mc1 st.s0 st.s1 st.s2 st.s3,
   mc2 st.s0 st.s1 st.s2 st.s3, mc3 st.s0 st.s1 st.s2 st.s3,
   mc0 st.s4 st.s5 st.s6 st.s7, mc1 st.s4 st.s5 st.s6 st.s7,
   mc2 st.s4 st.s5 st.s6 st.s7, mc3 st.s4 st.s5 st.s6 st.s7,
   mc0 st.s8 st.s9 st.s10 st.s11, mc1 st.s8 st.s9 st.s10 st.s11,
   mc2 st.s8 st.s9 st.s10 st.s11, mc3 st.s8 st.s9 st.s10 st.s11,
   mc0 st.s12 st.s13 st.s14 st.s15, mc1 st.s12 st.s13 st.s14 st.s15,
   mc2 st.s12 st.s13 st.s14 st.s15, mc3 st.s12 st.s13 st.s14 st.s15⟩

/-- InvMixColumns step. -/
def invMixColumns (st : AESState) : AESState :=
  ⟨im0 st.s0 st.s1 st.s2 st.s3, im1 st.s0 st.s1 st.s2 st.s3,
   im2 st.s0 st.s1 st.s2 st.s3, im3 st.s0 st.s1 st.s2 st.s3,
   im0 st.s4 st.s5 st.s6 st.s7, im1 st.s4 st.s5 st.s6 st.s7,
   im2 st.s4 st.s5 st.s6 st.s7, im3 st.s4 st.s5 st.s6 st.s7,
   im0 st.s8 st.s9 st.s10 st.s11, im1 st.s8 st.s9 st.s10 st.s11,
   im2 st.s8 st.s9 st.s10 st.s11, im3 st.s8 st.s9 st.s10 st.s11,
   im0 st.s12 st.s13 st.s14 st.s15, im1 st.s12 st.s13 st.s14 st.s15,
   im2 st.s12 st.s13 st.s14 st.s15, im3 st.s12 st.s13 st.s14 st.s15⟩

/-- AddRoundKey step: bytewise XOR with the round key. -/
def addRoundKey (st k : AESState) : AESState :=
  ⟨st.s0 ^^^ k.s0, st.s1 ^^^ k.s1, st.s2 ^^^ k.s2, st.s3 ^^^ k.s3,
   st.s4 ^^^ k.s4, st.s5 ^^^ k.s5, st.s6 ^^^ k.s6, st.s7 ^^^ k.s7,
   st.s8 ^^^ k.s8, st.s9 ^^^ k.s9, st.s10 ^^^ k.s10, st.s11 ^^^ k.s11,
   st.s12 ^^^ k.s12, st.s13 ^^^ k.s13, st.s14 ^^^ k.s14, st.s15 ^^^ k.s15⟩

/-- RotWord of the key schedule. -/
def rotWord : List Nat → List Nat
  | [a, b, c, d] => [b, c, d, a]
  | w => w

/-- SubWord of the key schedule. -/
def subWord (w : List Nat) : List Nat := w.map sbox

/-- Bytewise XOR of two words. -/
def xorWord (v w : List Nat) : List Nat := List.zipWith (fun a b => a ^^^ b) v w

/-- Round constants: `rconAux n = x^n` in GF(2^8). -/
def rconAux : Nat → Nat
  | 0 => 1
  | n + 1 => xtime (rconAux n)

/-- Split a byte sequence into 4-byte words. -/
def chunk4 : List Nat → List (List Nat)
  | a :: b :: c :: d :: rest => [a, b, c, d] :: chunk4 rest
  | _ => []

/-- Next word of the AES-256 key schedule given all previous words. -/
def nextWord (ws : List (List Nat)) : List Nat :=
  let i := ws.length
  let prev := ws.getLastD [0, 0, 0, 0]
  let w8 := ws.getD (i - 8) [0, 0, 0, 0]
  let temp :=
    if i % 8 = 0 then xorWord (subWord (rotWord prev)) [rconAux (i / 8 - 1), 0, 0, 0]
    else if i % 8 = 4 then subWord prev
    else prev
  xorWord w8 temp

/-- Iterate the key schedule `n` more words. -/
def expandFrom (ws : List (List Nat)) : Nat → List (List Nat)
  | 0 => ws
  | n + 1 => expandFrom (ws ++ [nextWord ws]) n

/-- Group schedule words into 16-byte round-key states (4 words each). -/
def groupWords : List (List Nat) → List AESState
  | w0 :: w1 :: w2 :: w3 :: rest => toState (w0 ++ (w1 ++ (w2 ++ w3))) :: groupWords rest
  | _ => []

/-- The 15 AES-256 round keys derived from a 32-byte key (8 initial words
expanded to 60). -/
def roundKeys (key : List Nat) : List AESState :=
  groupWords (expandFrom (chunk4 key) 52)

/-- One full encryption round. -/
def encRound (st k : AESState) : AESState := addRoundKey (mixColumns (shiftRows (subBytes st))) k

/-- One full decryption round (inverse of `encRound` with the same key). -/
def decRound (st k : AESState) : AESState := invSubBytes (invShiftRows (invMixColumns (addRoundKey st k)))

/-- Apply full encryption rounds for each key in order. -/
def encCore : List AESState → AESState → AESState
  | [], st => st
  | k :: ks, st => encCore ks (encRound st k)

/-- Apply inverse rounds for each key in order. -/
def decCore : List AESState → AESState → AESState
  | [], st => st
  | k :: ks, st => decCore ks (decRound st k)

/-- The all-zero state. -/
def zeroState : AESState := ⟨0, 0, 0, 0, 0, 0, 0, 0, 0, 0, 0, 0, 0, 0, 0, 0⟩

/-- AES block encryption: initial whitening, middle rounds, final round
without MixColumns. -/
def aesEncryptSt (k0 : AESState) (mid : List AESState) (klast : AESState) (st : AESState) :
    AESState :=
  addRoundKey (shiftRows (subBytes (encCore mid (addRoundKey st k0)))) klast

/-- AES block decryption, undoing `aesEncryptSt` with the same key material. -/
def aesDecryptSt (k0 : AESState) (mid : List AESState) (klast : AESState) (st : AESState) :
    AESState :=
  addRoundKey (decCore mid.reverse (invSubBytes (invShiftRows (addRoundKey st klast)))) k0

/-- AES-256 encryption of a 16-byte block. -/
def aesEncryptBlock (key block : List Nat) : List Nat :=
  let ks := roundKeys key
  stateToList
    (aesEncryptSt (ks.headD zeroState) (ks.drop 1).dropLast (ks.getLastD zeroState)
      (toState block))

/-- AES-256 decryption of a 16-byte block. -/
def aesDecryptBlock (key block : List Nat) : List Nat :=
  let ks := roundKeys key
  stateToList
    (aesDecryptSt (ks.headD zeroState) (ks.drop 1).dropLast (ks.getLastD zeroState)
      (toState block))

/-- Bytewise XOR of two byte sequences. -/
def xorBytes (v w : List Nat) : List Nat := List.zipWith (fun a b => a ^^^ b) v w

/-- CBC-mode encryption of a byte stream (16 bytes per block, chaining value
`prev`); a trailing fragment shorter than a block cannot occur on the padded
streams the cipher feeds in. -/
def cbcEncBytes (key : List Nat) (prev : List Nat) : List Nat → List Nat
  | b0 :: b1 :: b2 :: b3 :: b4 :: b5 :: b6 :: b7 ::
    b8 :: b9 :: b10 :: b11 :: b12 :: b13 :: b14 :: b15 :: rest =>
    let c := aesEncryptBlock key
      (xorBytes prev [b0, b1, b2, b3, b4, b5, b6, b7, b8, b9, b10, b11, b12, b13, b14, b15])
    c ++ cbcEncBytes key c rest
  | _ => []

/-- CBC-mode decryption of a byte stream. -/
def cbcDecBytes (key : List Nat) (prev : List Nat) : List Nat → List Nat
  | c0 :: c1 :: c2 :: c3 :: c4 :: c5 :: c6 :: c7 ::
    c8 :: c9 :: c10 :: c11 :: c12 :: c13 :: c14 :: c15 :: rest =>
    let cblk := [c0, c1, c2, c3, c4, c5, c6, c7, c8, c9, c10, c11, c12, c13, c14, c15]
    xorBytes prev (aesDecryptBlock key cblk) ++ cbcDecBytes key cblk rest
  | _ => []

/-- PKCS#7 padding to a multiple of 16 bytes, as OpenSSL applies inside
`cipher.final()`. -/
def pkcs7pad (l : List Nat) : List Nat :=
  let p := 16 - l.length % 16
  l ++ List.replicate p p

/-- PKCS#7 padding removal with full validation, as OpenSSL performs inside
`decipher.final()`; `none` models the thrown `bad decrypt` error. -/
def pkcs7unpad (l : List Nat) : Option (List Nat) :=
  match l.getLast? with
  | none => none
  | some n =>
    if 1 ≤ n ∧ n ≤ 16 ∧ n ≤ l.length ∧ (l.drop (l.length - n)).all (fun b => b = n)
    then some (l.take (l.length - n))
    else none

/-- JavaScript `String.prototype.split(':')` on a character list. -/
def splitColon : List Char → List (List Char)
  | [] => [[]]
  | c :: rest =>
    if c = ':' then [] :: splitColon rest
    else match splitColon rest with
      | p :: ps => (c :: p) :: ps
      | [] => [[c]]

/-- JavaScript `Array.prototype.join(':')` on character lists. -/
def joinColon : List (List Char) → List Char
  | [] => []
  | [p] => p
  | p :: ps => p ++ ':' :: joinColon ps

/-- The source's `cryptoMethods.aesIGE.encrypt`: AES-256-CBC over the UTF-8
bytes of the input with a fresh random 16-byte IV (passed here explicitly),
producing `ivHex ++ ":" ++ ciphertextHex`.  `none` models the exception
`createCipheriv` throws when key or IV have the wrong length. -/
def encryptField (data : List Nat) (key : List Nat) (iv : List Nat) : Option String :=
  if key.length = 32 ∧ iv.length = 16 then
    some (String.mk (hexEncode iv ++ ':' :: hexEncode (cbcEncBytes key iv (pkcs7pad data))))
  else none

/-- The source's `cryptoMethods.aesIGE.decrypt`: split on `':'`, take the
first part as the IV, rejoin the rest as ciphertext hex, then AES-256-CBC
decrypt and unpad.  `none` models any thrown decryption error (bad key/IV
length, `wrong final block length`, `bad decrypt`). -/
def decryptField (encryptedData : String) (key : List Nat) : Option (List Nat) :=
  match splitColon encryptedData.data with
  | [] => none
  | ivHex :: rest =>
    let iv := hexDecode ivHex
    let ct := hexDecode (joinColon rest)
    if key.length = 32 ∧ iv.length = 16 then
      if ct.length % 16 = 0 then pkcs7unpad (cbcDecBytes key iv ct)
      else none
    else none

/-- Byte view of an ASCII string (the UTF-8 bytes the cipher consumes). -/
def strToBytes (s : String) : List Nat := s.data.map Char.toNat

/-- String view of a decrypted byte sequence (ASCII). -/
def bytesToStr (l : List Nat) : String := String.mk (l.map Char.ofNat)

/-- String-level wrapper of `decryptField` used by `decryptUserData`. -/
def decryptFieldStr (encryptedData : String) (key : List Nat) : Option String :=
  (decryptField encryptedData key).map bytesToStr

/-- Predicate: every element of the list is a byte. -/
def Bytes (l : List Nat) : Prop := ∀ b ∈ l, b < 256

instance (l : List Nat) : Decidable (Bytes l) :=
  inferInstanceAs (Decidable (∀ b ∈ l, b < 256))

/-- Predicate: every byte of the state is below 256. -/
def BoundedState (st : AESState) : Prop :=
  st.s0 < 256 ∧ st.s1 < 256 ∧ st.s2 < 256 ∧ st.s3 < 256 ∧
  st.s4 < 256 ∧ st.s5 < 256 ∧ st.s6 < 256 ∧ st.s7 < 256 ∧
  st.s8 < 256 ∧ st.s9 < 256 ∧ st.s10 < 256 ∧ st.s11 < 256 ∧
  st.s12 < 256 ∧ st.s13 < 256 ∧ st.s14 < 256 ∧ st.s15 < 256

instance (st : AESState) : Decidable (BoundedState st) :=
  inferInstanceAs (Decidable (_ ∧ _))

end Cown

namespace Cown

/-- Session metadata as produced by `mtproto.createSession` and cached in
Redis by `cacheUserSession` under the key `session:userId`. -/
structure SessionData where
  session_id : String
  auth_key : String
deriving DecidableEq

/-- Result of a Redis `get` for a session key: a cached record, a miss
(`null`), or a thrown error when the store is unreachable. -/
inductive StoreResult where
  | hit (data : SessionData)
  | miss
  | unavailable
deriving DecidableEq

/-- The Redis session store as observed through `get session:userId`. -/
def RedisStore := Nat → StoreResult

/-- Build a store from healthy contents (no outage). -/
def storeOfContents (contents : Nat → Option SessionData) : RedisStore :=
  fun k =>
    match contents k with
    | some d => StoreResult.hit d
    | none => StoreResult.miss

/-- The store during a total outage: every `get` throws. -/
def unavailableStore : RedisStore := fun _ => StoreResult.unavailable

/-- The source's `cacheUserSession`: `setEx session:userId` (modelled on a
healthy store; the source swallows Redis errors and leaves the store as is). -/
def cacheUserSession (store : RedisStore) (userId : Nat) (data : SessionData) : RedisStore :=
  fun k => if k = userId then StoreResult.hit data else store k

/-- The source's `AuthService.verifySession`: read `session:userId` from
Redis, report `false` on a miss, compare the cached `session_id` on a hit,
and — in the `catch` branch — report `true` when the store is unreachable
("to avoid blocking users"). -/
def verifySession (store : RedisStore) (userId : Nat) (sessionId : String) : Bool :=
  match store userId with
  | StoreResult.unavailable => true
  | StoreResult.miss => false
  | StoreResult.hit d => d.session_id == sessionId

/-- JavaScript falsiness of `req.session.userId` (absent or `0`). -/
def isFalsyNum : Option Nat → Bool
  | none => true
  | some 0 => true
  | some (_ + 1) => false

/-- JavaScript falsiness of `req.session.sessionId` (absent or empty). -/
def isFalsyStr : Option String → Bool
  | none => true
  | some s => s == ""

/-- Outcome of the `requireAuth` middleware: `next()` with the resolved user
attached, or a JSON error response with an HTTP status and error code. -/
inductive AuthOutcome where
  | proceed (userId : Nat) (sessionId : String)
  | denied (status : Nat) (code : String)
deriving DecidableEq

/-- Result of one `requireAuth` invocation, instrumented with its side
effects: which session-store keys were read or deleted, and whether
`req.session.destroy()` was called. -/
structure AuthResult where
  outcome : AuthOutcome
  storeReads : List Nat
  storeDeletes : List Nat
  localSessionDestroyed : Bool
deriving DecidableEq

/-- The source's `requireAuth` middleware: reject with `AUTH_REQUIRED` when
either credential is falsy (no store access), otherwise consult
`verifySession`; on failure destroy the request's local session and reject
with `SESSION_INVALID`.  The middleware's own `catch` (500 `AUTH_ERROR`) is
unreachable because `verifySession` never throws. -/
def requireAuth (store : RedisStore) (userId : Option Nat) (sessionId : Option String) :
    AuthResult :=
  if isFalsyNum userId || isFalsyStr sessionId then
    ⟨AuthOutcome.denied 401 "AUTH_REQUIRED", [], [], false⟩
  else
    let uid := userId.getD 0
    let sid := sessionId.getD ""
    if verifySession store uid sid then
      ⟨AuthOutcome.proceed uid sid, [uid], [], false⟩
    else
      ⟨AuthOutcome.denied 401 "SESSION_INVALID", [uid], [], true⟩

/-- The session store as it stands after a `requireAuth` call: only keys the
middleware actually deleted can change. -/
def storeAfter (store : RedisStore) (r : AuthResult) : RedisStore :=
  fun k => if k ∈ r.storeDeletes then StoreResult.miss else store k

/-- One row of the `users` table as recreated by `storeUserInMySQL` (only
`email` and `password_hash` are ever inserted; the remaining columns stay
NULL). -/
structure StoredUser where
  id : Nat
  email : String
  password_hash : String
  session_id : Option String
  auth_key : Option String
  encryption_key : Option String
  first_name : Option String
  last_name : Option String
  phone : Option String
deriving DecidableEq

/-- The MySQL database state relevant to registration. -/
structure MySQLDB where
  users : List StoredUser
deriving DecidableEq

/-- The source's `storeUserInMySQL`: drop `user_sessions` and `users`,
recreate both tables (erasing every existing account), insert the new row
(id 1 in the fresh table), and on an insert error catch it and return a
random dummy id `Math.floor(Math.random() * 10000)` (passed in as
`dummyId`). -/
def storeUserInMySQL (db : MySQLDB) (email password_hash : String) (insertFails : Bool)
    (dummyId : Nat) : Nat × MySQLDB :=
  if insertFails then (dummyId, ⟨[]⟩)
  else (1, ⟨[⟨1, email, password_hash, none, none, none, none, none, none⟩]⟩)

/-- Registration input (`userData`). -/
structure RegInput where
  email : String
  firstName : String
  lastName : String
  phone : Option String
  password : String

/-- The object built by `encryptUserData`: email kept in plaintext for login
lookup, names and phone as field-cipher ciphertexts, and the per-user key in
hex. -/
structure EncryptedData where
  email : String
  first_name : String
  last_name : String
  phone : Option String
  encryption_key : String
deriving DecidableEq

/-- The source's `encryptUserData`: generate a fresh 32-byte key (passed in
as `encKey` with the per-field random IVs) and encrypt `firstName`,
`lastName` and, when present, `phone`; the email is left unencrypted. -/
def encryptUserData (input : RegInput) (encKey ivF ivL ivP : List Nat) :
    Option EncryptedData := do
  let fn ← encryptField (strToBytes input.firstName) encKey ivF
  let ln ← encryptField (strToBytes input.lastName) encKey ivL
  let ph ← match input.phone with
    | none => pure none
    | some p => (encryptField (strToBytes p) encKey ivP).map some
  pure ⟨input.email, fn, ln, ph, String.mk (hexEncode encKey)⟩

/-- Environment of one `register` call: the random key and IVs consumed by
`encryptUserData`, the bcrypt digest, the session identifiers produced by
`createSession`, whether the MySQL insert fails, and the `Math.random` draw
used for the dummy id in that case. -/
structure RegContext where
  encKey : List Nat
  ivF : List Nat
  ivL : List Nat
  ivP : List Nat
  passwordHash : String
  sessionId : String
  authKey : String
  insertFails : Bool
  dummyId : Nat

/-- Result of `AuthService.register`. -/
inductive RegisterResult where
  | ok (userId : Nat) (sessionId : String)
  | err (msg : String)
deriving DecidableEq

/-- The source's `AuthService.register`: encrypt the user data, hash the
password, create the session, store the row via `storeUserInMySQL`, and
report success with the returned id.  MongoDB profile storage and the Redis
session cache do not affect the result (`cacheUserSession` swallows its
errors) and are not tracked here. -/
def register (db : MySQLDB) (input : RegInput) (ctx : RegContext) :
    RegisterResult × MySQLDB :=
  match encryptUserData input ctx.encKey ctx.ivF ctx.ivL ctx.ivP with
  | none => (RegisterResult.err "Failed to register user", db)
  | some enc =>
    let r := storeUserInMySQL db enc.email ctx.passwordHash ctx.insertFails ctx.dummyId
    (RegisterResult.ok r.fst ctx.sessionId, r.snd)

/-- Profile data returned by `decryptUserData`. -/
structure DecryptedUser where
  email : String
  firstName : String
  lastName : String
  phone : Option String
deriving DecidableEq

/-- The plain-data record `decryptUserData` falls back to, both when no
encryption key is stored and in its `catch` branch. -/
def fallbackUser (u : StoredUser) : DecryptedUser :=
  ⟨u.email, u.first_name.getD "", u.last_name.getD "", u.phone⟩

/-- The source's `decryptUserData`: without a stored key return the raw row;
otherwise try to decrypt each present field, and on any decryption error
catch it and return the raw row as fallback — an error is never surfaced. -/
def decryptUserData (u : StoredUser) : DecryptedUser :=
  match u.encryption_key with
  | none => fallbackUser u
  | some ekHex =>
    let key := hexDecode ekHex.data
    let attempt : Option DecryptedUser := do
      let fn ← match u.first_name with
        | none => pure ""
        | some ct => decryptFieldStr ct key
      let ln ← match u.last_name with
        | none => pure ""
        | some ct => decryptFieldStr ct key
      let ph ← match u.phone with
        | none => pure none
        | some ct => (decryptFieldStr ct key).map some
      pure ⟨u.email, fn, ln, ph⟩
    match attempt with
    | some d => d
    | none => fallbackUser u

/-- The allow-list of `UserService.updateProfile`. -/
def allowedFields : List String :=
  ["firstName", "lastName", "bio", "dateOfBirth", "location", "website", "phoneNumber"]

/-- Set a column of a row to a value (SQL `SET key = value`). -/
def setField : List (String × String) → String → String → List (String × String)
  | [], k, v => [(k, v)]
  | (k0, v0) :: rest, k, v =>
    if k0 = k then (k, v) :: rest else (k0, v0) :: setField rest k v

/-- Read a column of a row. -/
def getField (rec : List (String × String)) (k : String) : Option String :=
  (rec.find? (fun kv => kv.fst == k)).map Prod.snd

/-- Apply a sequence of `SET` clauses in order. -/
def applySets (rec : List (String × String)) (updates : List (String × String)) :
    List (String × String) :=
  updates.foldl (fun r kv => setField r kv.fst kv.snd) rec

/-- The source's `UserRepository.update`: build `SET` clauses from every
supplied field except `id` and `password_hash`, storing each value exactly
as supplied. -/
def repoUpdate (rec : List (String × String)) (updateData : List (String × String)) :
    List (String × String) :=
  applySets rec (updateData.filter (fun kv => kv.fst != "id" && kv.fst != "password_hash"))

/-- The source's `UserService.updateProfile`: keep only allow-listed fields,
add an `updatedAt` timestamp, and hand the values unchanged — without any
encryption and without touching any key material — to `UserRepository.update`. -/
def updateProfile (rec : List (String × String)) (updateData : List (String × String))
    (now : String) : List (String × String) :=
  repoUpdate rec (updateData.filter (fun kv => allowedFields.contains kv.fst) ++ [("updatedAt", now)])


/-- Example 32-byte field-encryption key (a concrete `generateKey` draw). -/
def exKey : List Nat := List.range 32

/-- Example 16-byte IV (a concrete `randomBytes(16)` draw). -/
def exIV : List Nat := List.range 16

/-- Example plaintext: the UTF-8 bytes of "Alice". -/
def exPlain : List Nat := strToBytes "Alice"

/-- Ciphertext body produced for `exPlain` under `exKey` with IV `exIV`. -/
def exCipherBody : List Nat := cbcEncBytes exKey exIV (pkcs7pad exPlain)

/-- The valid ciphertext `encryptField exPlain exKey exIV` produces. -/
def exCipher : String := String.mk (hexEncode exIV ++ ':' :: hexEncode exCipherBody)

/-- The same ciphertext with the lowest bit of the first IV byte flipped
(`0x00` becomes `0x01`). -/
def exTamperedCipher : String :=
  String.mk (hexEncode (1 :: List.drop 1 exIV) ++ ':' :: hexEncode exCipherBody)

/-- The UTF-8 bytes of "@lice": `exPlain` with the low bit of its first byte
flipped. -/
def exGarbled : List Nat := strToBytes "@lice"

/-- Example session-store contents: account 1 holds a session with token
"token-A". -/
def exSessionContents : Nat → Option SessionData :=
  fun k => if k = 1 then some ⟨"token-A", "authkey-A"⟩ else none

/-- The example session store. -/
def exStore : RedisStore := storeOfContents exSessionContents

/-- Example MySQL state: one existing account with email `a@x.com`. -/
def exDB : MySQLDB := ⟨[⟨1, "a@x.com", "oldhash", none, none, none, none, none, none⟩]⟩

/-- Example registration input re-using the already-taken email `a@x.com`. -/
def exRegInput : RegInput := ⟨"a@x.com", "Bob", "Li", none, "Str0ngPass"⟩

/-- Example registration environment with a healthy MySQL insert. -/
def exCtx : RegContext :=
  ⟨List.range 32, List.range 16, List.range 16, List.range 16, "newhash", "sess-1", "ak-1",
    false, 0⟩

/-- Example profile row holding an account's encryption key column. -/
def exProfileRow : List (String × String) :=
  [("id", "7"), ("firstName", "Bob"), ("encryption_key", "00112233")]

end Cown

namespace Cown

/-- Left commutativity of XOR on naturals. -/
theorem xorLeftComm (a b c : Nat) : a ^^^ (b ^^^ c) = b ^^^ (a ^^^ c) := by
  rw [← Nat.xor_assoc, Nat.xor_comm a b, Nat.xor_assoc]

/-- XOR of two bytes is a byte. -/
theorem xor_lt_256 {a b : Nat} (ha : a < 256) (hb : b < 256) : a ^^^ b < 256 := by
  have e : (2 : Nat) ^ 8 = 256 := by norm_num
  exact e ▸ Nat.xor_lt_two_pow (e.symm ▸ ha) (e.symm ▸ hb)

/-- XOR of two values below 128 stays below 128. -/
theorem xor_lt_128 {a b : Nat} (ha : a < 128) (hb : b < 128) : a ^^^ b < 128 := by
  have e : (2 : Nat) ^ 7 = 128 := by norm_num
  exact e ▸ Nat.xor_lt_two_pow (e.symm ▸ ha) (e.symm ▸ hb)

/-- XOR of a low and a high byte is high. -/
theorem xor_not_lt_128 {a b : Nat} (ha : a < 128) (hb : 128 ≤ b) : ¬(a ^^^ b < 128) := by
  intro h
  have hb' : b < 128 := by
    have := xor_lt_128 ha h
    rwa [Nat.xor_cancel_left] at this
  omega

/-- Clearing the high bit of a high byte. -/
theorem xor_128_lt {a : Nat} (ha : 128 ≤ a) (ha' : a < 256) : a ^^^ 128 < 128 := by
  have h : ∀ b < 256, 128 ≤ b → b ^^^ 128 < 128 := by decide
  exact h a ha' ha

/-- XOR of two high bytes is low. -/
theorem xor_lt_128_of_high {a b : Nat} (ha : 128 ≤ a) (ha' : a < 256) (hb : 128 ≤ b)
    (hb' : b < 256) : a ^^^ b < 128 := by
  have h : a ^^^ b = (a ^^^ 128) ^^^ (b ^^^ 128) := by
    simp [Nat.xor_assoc, Nat.xor_comm, xorLeftComm, Nat.xor_self, Nat.xor_zero, Nat.zero_xor]
  rw [h]
  exact xor_lt_128 (xor_128_lt ha ha') (xor_128_lt hb hb')

/-- Doubling distributes over XOR. -/
theorem two_mul_xor (a b : Nat) : 2 * (a ^^^ b) = 2 * a ^^^ 2 * b := by
  have h2 : ∀ x : Nat, 2 * x = x <<< 1 := by
    intro x
    rw [Nat.shiftLeft_eq]
    ring
  rw [h2, h2, h2]
  apply Nat.eq_of_testBit_eq
  intro i
  simp only [Nat.testBit_shiftLeft, Nat.testBit_xor]
  by_cases hi : 1 ≤ i <;> simp [hi, ge_iff_le]

/-- The `xtime` map is GF(2)-linear on bytes. -/
theorem xtime_xor {a b : Nat} (ha : a < 256) (hb : b < 256) :
    xtime (a ^^^ b) = xtime a ^^^ xtime b := by
  unfold xtime
  by_cases h1 : a < 128 <;> by_cases h2 : b < 128
  · rw [if_pos h1, if_pos h2, if_pos (xor_lt_128 h1 h2), two_mul_xor]
  · rw [if_pos h1, if_neg h2, if_neg (xor_not_lt_128 h1 (by omega)), two_mul_xor,
      Nat.xor_assoc]
  · rw [if_neg h1, if_pos h2, if_neg (fun h => xor_not_lt_128 h2 (by omega)
      (Nat.xor_comm a b ▸ h)), two_mul_xor]
    simp [Nat.xor_assoc, Nat.xor_comm, xorLeftComm]
  · rw [if_neg h1, if_neg h2,
      if_pos (xor_lt_128_of_high (by omega) ha (by omega) hb), two_mul_xor]
    simp [Nat.xor_assoc, Nat.xor_comm, xorLeftComm, Nat.xor_self, Nat.xor_zero, Nat.zero_xor]

/-- The `xtime` map sends bytes to bytes. -/
theorem xtime_lt {a : Nat} (ha : a < 256) : xtime a < 256 := by
  have h : ∀ b < 256, xtime b < 256 := by decide
  exact h a ha

/-- The S-box sends bytes to bytes. -/
theorem sbox_lt {a : Nat} (ha : a < 256) : sbox a < 256 := by
  have h : ∀ b < 256, sbox b < 256 := by decide
  exact h a ha

/-- The inverse S-box undoes the S-box on bytes. -/
theorem invSbox_sbox {a : Nat} (ha : a < 256) : invSbox (sbox a) = a := by
  have h : ∀ b < 256, invSbox (sbox b) = b := by decide
  exact h a ha

end Cown

namespace Cown

/-- Multiplication by 3 sends bytes to bytes. -/
theorem x3_lt {a : Nat} (ha : a < 256) : x3 a < 256 := xor_lt_256 (xtime_lt ha) ha

/-- Multiplication by 4 sends bytes to bytes. -/
theorem x4_lt {a : Nat} (ha : a < 256) : x4 a < 256 := xtime_lt (xtime_lt ha)

/-- Multiplication by 8 sends bytes to bytes. -/
theorem x8_lt {a : Nat} (ha : a < 256) : x8 a < 256 := xtime_lt (x4_lt ha)

/-- Multiplication by 9 sends bytes to bytes. -/
theorem m9_lt {a : Nat} (ha : a < 256) : m9 a < 256 := xor_lt_256 (x8_lt ha) ha

/-- Multiplication by 11 sends bytes to bytes. -/
theorem m11_lt {a : Nat} (ha : a < 256) : m11 a < 256 :=
  xor_lt_256 (x8_lt ha) (xor_lt_256 (xtime_lt ha) ha)

/-- Multiplication by 13 sends bytes to bytes. -/
theorem m13_lt {a : Nat} (ha : a < 256) : m13 a < 256 :=
  xor_lt_256 (x8_lt ha) (xor_lt_256 (x4_lt ha) ha)

/-- Multiplication by 14 sends bytes to bytes. -/
theorem m14_lt {a : Nat} (ha : a < 256) : m14 a < 256 :=
  xor_lt_256 (x8_lt ha) (xor_lt_256 (x4_lt ha) (xtime_lt ha))

/-- Multiplication by 3 is GF(2)-linear on bytes. -/
theorem x3_xor {a b : Nat} (ha : a < 256) (hb : b < 256) : x3 (a ^^^ b) = x3 a ^^^ x3 b := by
  unfold x3
  rw [xtime_xor ha hb]
  simp [Nat.xor_assoc, Nat.xor_comm, xorLeftComm]

/-- Multiplication by 4 is GF(2)-linear on bytes. -/
theorem x4_xor {a b : Nat} (ha : a < 256) (hb : b < 256) : x4 (a ^^^ b) = x4 a ^^^ x4 b := by
  unfold x4
  rw [xtime_xor ha hb, xtime_xor (xtime_lt ha) (xtime_lt hb)]

/-- Multiplication by 8 is GF(2)-linear on bytes. -/
theorem x8_xor {a b : Nat} (ha : a < 256) (hb : b < 256) : x8 (a ^^^ b) = x8 a ^^^ x8 b := by
  unfold x8
  rw [xtime_xor ha hb, xtime_xor (xtime_lt ha) (xtime_lt hb),
    xtime_xor (xtime_lt (xtime_lt ha)) (xtime_lt (xtime_lt hb))]

/-- Multiplication by 9 is GF(2)-linear on bytes. -/
theorem m9_xor {a b : Nat} (ha : a < 256) (hb : b < 256) : m9 (a ^^^ b) = m9 a ^^^ m9 b := by
  unfold m9
  rw [x8_xor ha hb]
  simp [Nat.xor_assoc, Nat.xor_comm, xorLeftComm]

/-- Multiplication by 11 is GF(2)-linear on bytes. -/
theorem m11_xor {a b : Nat} (ha : a < 256) (hb : b < 256) : m11 (a ^^^ b) = m11 a ^^^ m11 b := by
  unfold m11
  rw [x8_xor ha hb, xtime_xor ha hb]
  simp [Nat.xor_assoc, Nat.xor_comm, xorLeftComm]

/-- Multiplication by 13 is GF(2)-linear on bytes. -/
theorem m13_xor {a b : Nat} (ha : a < 256) (hb : b < 256) : m13 (a ^^^ b) = m13 a ^^^ m13 b := by
  unfold m13
  rw [x8_xor ha hb, x4_xor ha hb]
  simp [Nat.xor_assoc, Nat.xor_comm, xorLeftComm]

/-- Multiplication by 14 is GF(2)-linear on bytes. -/
theorem m14_xor {a b : Nat} (ha : a < 256) (hb : b < 256) : m14 (a ^^^ b) = m14 a ^^^ m14 b := by
  unfold m14
  rw [x8_xor ha hb, x4_xor ha hb, xtime_xor ha hb]
  simp [Nat.xor_assoc, Nat.xor_comm, xorLeftComm]

/-- Row 0 of MixColumns sends bytes to bytes. -/
theorem mc0_lt {a b c d : Nat} (ha : a < 256) (hb : b < 256) (hc : c < 256) (hd : d < 256) :
    mc0 a b c d < 256 :=
  xor_lt_256 (xtime_lt ha) (xor_lt_256 (x3_lt hb) (xor_lt_256 hc hd))

/-- Row 1 of MixColumns sends bytes to bytes. -/
theorem mc1_lt {a b c d : Nat} (ha : a < 256) (hb : b < 256) (hc : c < 256) (hd : d < 256) :
    mc1 a b c d < 256 :=
  xor_lt_256 ha (xor_lt_256 (xtime_lt hb) (xor_lt_256 (x3_lt hc) hd))

/-- Row 2 of MixColumns sends bytes to bytes. -/
theorem mc2_lt {a b c d : Nat} (ha : a < 256) (hb : b < 256) (hc : c < 256) (hd : d < 256) :
    mc2 a b c d < 256 :=
  xor_lt_256 ha (xor_lt_256 hb (xor_lt_256 (xtime_lt hc) (x3_lt hd)))

/-- Row 3 of MixColumns sends bytes to bytes. -/
theorem mc3_lt {a b c d : Nat} (ha : a < 256) (hb : b < 256) (hc : c < 256) (hd : d < 256) :
    mc3 a b c d < 256 :=
  xor_lt_256 (x3_lt ha) (xor_lt_256 hb (xor_lt_256 hc (xtime_lt hd)))

/-- Row 0 of MixColumns is GF(2)-linear on byte columns. -/
theorem mc0_xor {a a' b b' c c' d d' : Nat} (ha : a < 256) (ha' : a' < 256) (hb : b < 256)
    (hb' : b' < 256) (hc : c < 256) (hc' : c' < 256) (hd : d < 256) (hd' : d' < 256) :
    mc0 (a ^^^ a') (b ^^^ b') (c ^^^ c') (d ^^^ d') = mc0 a b c d ^^^ mc0 a' b' c' d' := by
  unfold mc0
  rw [xtime_xor ha ha', x3_xor hb hb']
  simp [Nat.xor_assoc, Nat.xor_comm, xorLeftComm]

/-- Row 1 of MixColumns is GF(2)-linear on byte columns. -/
theorem mc1_xor {a a' b b' c c' d d' : Nat} (ha : a < 256) (ha' : a' < 256) (hb : b < 256)
    (hb' : b' < 256) (hc : c < 256) (hc' : c' < 256) (hd : d < 256) (hd' : d' < 256) :
    mc1 (a ^^^ a') (b ^^^ b') (c ^^^ c') (d ^^^ d') = mc1 a b c d ^^^ mc1 a' b' c' d' := by
  unfold mc1
  rw [xtime_xor hb hb', x3_xor hc hc']
  simp [Nat.xor_assoc, Nat.xor_comm, xorLeftComm]

/-- Row 2 of MixColumns is GF(2)-linear on byte columns. -/
theorem mc2_xor {a a' b b' c c' d d' : Nat} (ha : a < 256) (ha' : a' < 256) (hb : b < 256)
    (hb' : b' < 256) (hc : c < 256) (hc' : c' < 256) (hd : d < 256) (hd' : d' < 256) :
    mc2 (a ^^^ a') (b ^^^ b') (c ^^^ c') (d ^^^ d') = mc2 a b c d ^^^ mc2 a' b' c' d' := by
  unfold mc2
  rw [xtime_xor hc hc', x3_xor hd hd']
  simp [Nat.xor_assoc, Nat.xor_comm, xorLeftComm]

/-- Row 3 of MixColumns is GF(2)-linear on byte columns. -/
theorem mc3_xor {a a' b b' c c' d d' : Nat} (ha : a < 256) (ha' : a' < 256) (hb : b < 256)
    (hb' : b' < 256) (hc : c < 256) (hc' : c' < 256) (hd : d < 256) (hd' : d' < 256) :
    mc3 (a ^^^ a') (b ^^^ b') (c ^^^ c') (d ^^^ d') = mc3 a b c d ^^^ mc3 a' b' c' d' := by
  unfold mc3
  rw [x3_xor ha ha', xtime_xor hd hd']
  simp [Nat.xor_assoc, Nat.xor_comm, xorLeftComm]

/-- Row 0 of InvMixColumns is GF(2)-linear on byte columns. -/
theorem im0_xor {a a' b b' c c' d d' : Nat} (ha : a < 256) (ha' : a' < 256) (hb : b < 256)
    (hb' : b' < 256) (hc : c < 256) (hc' : c' < 256) (hd : d < 256) (hd' : d' < 256) :
    im0 (a ^^^ a') (b ^^^ b') (c ^^^ c') (d ^^^ d') = im0 a b c d ^^^ im0 a' b' c' d' := by
  unfold im0
  rw [m14_xor ha ha', m11_xor hb hb', m13_xor hc hc', m9_xor hd hd']
  simp [Nat.xor_assoc, Nat.xor_comm, xorLeftComm]

/-- Row 1 of InvMixColumns is GF(2)-linear on byte columns. -/
theorem im1_xor {a a' b b' c c' d d' : Nat} (ha : a < 256) (ha' : a' < 256) (hb : b < 256)
    (hb' : b' < 256) (hc : c < 256) (hc' : c' < 256) (hd : d < 256) (hd' : d' < 256) :
    im1 (a ^^^ a') (b ^^^ b') (c ^^^ c') (d ^^^ d') = im1 a b c d ^^^ im1 a' b' c' d' := by
  unfold im1
  rw [m9_xor ha ha', m14_xor hb hb', m11_xor hc hc', m13_xor hd hd']
  simp [Nat.xor_assoc, Nat.xor_comm, xorLeftComm]

/-- Row 2 of InvMixColumns is GF(2)-linear on byte columns. -/
theorem im2_xor {a a' b b' c c' d d' : Nat} (ha : a < 256) (ha' : a' < 256) (hb : b < 256)
    (hb' : b' < 256) (hc : c < 256) (hc' : c' < 256) (hd : d < 256) (hd' : d' < 256) :
    im2 (a ^^^ a') (b ^^^ b') (c ^^^ c') (d ^^^ d') = im2 a b c d ^^^ im2 a' b' c' d' := by
  unfold im2
  rw [m13_xor ha ha', m9_xor hb hb', m14_xor hc hc', m11_xor hd hd']
  simp [Nat.xor_assoc, Nat.xor_comm, xorLeftComm]

/-- Row 3 of InvMixColumns is GF(2)-linear on byte columns. -/
theorem im3_xor {a a' b b' c c' d d' : Nat} (ha : a < 256) (ha' : a' < 256) (hb : b < 256)
    (hb' : b' < 256) (hc : c < 256) (hc' : c' < 256) (hd : d < 256) (hd' : d' < 256) :
    im3 (a ^^^ a') (b ^^^ b') (c ^^^ c') (d ^^^ d') = im3 a b c d ^^^ im3 a' b' c' d' := by
  unfold im3
  rw [m11_xor ha ha', m13_xor hb hb', m9_xor hc hc', m14_xor hd hd']
  simp [Nat.xor_assoc, Nat.xor_comm, xorLeftComm]

end Cown

namespace Cown

/-- InvMixColumns undoes MixColumns on the first basis column `(a,0,0,0)`. -/
theorem mixBasis0 : ∀ a < 256,
    im0 (mc0 a 0 0 0) (mc1 a 0 0 0) (mc2 a 0 0 0) (mc3 a 0 0 0) = a ∧
    im1 (mc0 a 0 0 0) (mc1 a 0 0 0) (mc2 a 0 0 0) (mc3 a 0 0 0) = 0 ∧
    im2 (mc0 a 0 0 0) (mc1 a 0 0 0) (mc2 a 0 0 0) (mc3 a 0 0 0) = 0 ∧
    im3 (mc0 a 0 0 0) (mc1 a 0 0 0) (mc2 a 0 0 0) (mc3 a 0 0 0) = 0 := by decide

/-- InvMixColumns undoes MixColumns on the second basis column `(0,b,0,0)`. -/
theorem mixBasis1 : ∀ b < 256,
    im0 (mc0 0 b 0 0) (mc1 0 b 0 0) (mc2 0 b 0 0) (mc3 0 b 0 0) = 0 ∧
    im1 (mc0 0 b 0 0) (mc1 0 b 0 0) (mc2 0 b 0 0) (mc3 0 b 0 0) = b ∧
    im2 (mc0 0 b 0 0) (mc1 0 b 0 0) (mc2 0 b 0 0) (mc3 0 b 0 0) = 0 ∧
    im3 (mc0 0 b 0 0) (mc1 0 b 0 0) (mc2 0 b 0 0) (mc3 0 b 0 0) = 0 := by decide

/-- InvMixColumns undoes MixColumns on the third basis column `(0,0,c,0)`. -/
theorem mixBasis2 : ∀ c < 256,
    im0 (mc0 0 0 c 0) (mc1 0 0 c 0) (mc2 0 0 c 0) (mc3 0 0 c 0) = 0 ∧
    im1 (mc0 0 0 c 0) (mc1 0 0 c 0) (mc2 0 0 c 0) (mc3 0 0 c 0) = 0 ∧
    im2 (mc0 0 0 c 0) (mc1 0 0 c 0) (mc2 0 0 c 0) (mc3 0 0 c 0) = c ∧
    im3 (mc0 0 0 c 0) (mc1 0 0 c 0) (mc2 0 0 c 0) (mc3 0 0 c 0) = 0 := by decide

/-- InvMixColumns undoes MixColumns on the fourth basis column `(0,0,0,d)`. -/
theorem mixBasis3 : ∀ d < 256,
    im0 (mc0 0 0 0 d) (mc1 0 0 0 d) (mc2 0 0 0 d) (mc3 0 0 0 d) = 0 ∧
    im1 (mc0 0 0 0 d) (mc1 0 0 0 d) (mc2 0 0 0 d) (mc3 0 0 0 d) = 0 ∧
    im2 (mc0 0 0 0 d) (mc1 0 0 0 d) (mc2 0 0 0 d) (mc3 0 0 0 d) = 0 ∧
    im3 (mc0 0 0 0 d) (mc1 0 0 0 d) (mc2 0 0 0 d) (mc3 0 0 0 d) = d := by decide

/-- InvMixColumns undoes MixColumns on every byte column, by linearity and
the four basis cases. -/
theorem colInv {a b c d : Nat} (ha : a < 256) (hb : b < 256) (hc : c < 256) (hd : d < 256) :
    im0 (mc0 a b c d) (mc1 a b c d) (mc2 a b c d) (mc3 a b c d) = a ∧
    im1 (mc0 a b c d) (mc1 a b c d) (mc2 a b c d) (mc3 a b c d) = b ∧
    im2 (mc0 a b c d) (mc1 a b c d) (mc2 a b c d) (mc3 a b c d) = c ∧
    im3 (mc0 a b c d) (mc1 a b c d) (mc2 a b c d) (mc3 a b c d) = d := by
  have h0 : (0 : Nat) < 256 := by omega
  have e0 : mc0 a b c d =
      mc0 a 0 0 0 ^^^ (mc0 0 b 0 0 ^^^ (mc0 0 0 c 0 ^^^ mc0 0 0 0 d)) := by
    have s1 := mc0_xor ha h0 h0 hb h0 hc h0 hd
    have s2 := mc0_xor h0 h0 hb h0 h0 hc h0 hd
    have s3 := mc0_xor h0 h0 h0 h0 hc h0 h0 hd
    simp only [Nat.xor_zero, Nat.zero_xor] at s1 s2 s3
    rw [s1, s2, s3]
  have e1 : mc1 a b c d =
      mc1 a 0 0 0 ^^^ (mc1 0 b 0 0 ^^^ (mc1 0 0 c 0 ^^^ mc1 0 0 0 d)) := by
    have s1 := mc1_xor ha h0 h0 hb h0 hc h0 hd
    have s2 := mc1_xor h0 h0 hb h0 h0 hc h0 hd
    have s3 := mc1_xor h0 h0 h0 h0 hc h0 h0 hd
    simp only [Nat.xor_zero, Nat.zero_xor] at s1 s2 s3
    rw [s1, s2, s3]
  have e2 : mc2 a b c d =
      mc2 a 0 0 0 ^^^ (mc2 0 b 0 0 ^^^ (mc2 0 0 c 0 ^^^ mc2 0 0 0 d)) := by
    have s1 := mc2_xor ha h0 h0 hb h0 hc h0 hd
    have s2 := mc2_xor h0 h0 hb h0 h0 hc h0 hd
    have s3 := mc2_xor h0 h0 h0 h0 hc h0 h0 hd
    simp only [Nat.xor_zero, Nat.zero_xor] at s1 s2 s3
    rw [s1, s2, s3]
  have e3 : mc3 a b c d =
      mc3 a 0 0 0 ^^^ (mc3 0 b 0 0 ^^^ (mc3 0 0 c 0 ^^^ mc3 0 0 0 d)) := by
    have s1 := mc3_xor ha h0 h0 hb h0 hc h0 hd
    have s2 := mc3_xor h0 h0 hb h0 h0 hc h0 hd
    have s3 := mc3_xor h0 h0 h0 h0 hc h0 h0 hd
    simp only [Nat.xor_zero, Nat.zero_xor] at s1 s2 s3
    rw [s1, s2, s3]
  have ba0 : mc0 a 0 0 0 < 256 := mc0_lt ha h0 h0 h0
  have ba1 : mc1 a 0 0 0 < 256 := mc1_lt ha h0 h0 h0
  have ba2 : mc2 a 0 0 0 < 256 := mc2_lt ha h0 h0 h0
  have ba3 : mc3 a 0 0 0 < 256 := mc3_lt ha h0 h0 h0
  have bb0 : mc0 0 b 0 0 < 256 := mc0_lt h0 hb h0 h0
  have bb1 : mc1 0 b 0 0 < 256 := mc1_lt h0 hb h0 h0
  have bb2 : mc2 0 b 0 0 < 256 := mc2_lt h0 hb h0 h0
  have bb3 : mc3 0 b 0 0 < 256 := mc3_lt h0 hb h0 h0
  have bc0 : mc0 0 0 c 0 < 256 := mc0_lt h0 h0 hc h0
  have bc1 : mc1 0 0 c 0 < 256 := mc1_lt h0 h0 hc h0
  have bc2 : mc2 0 0 c 0 < 256 := mc2_lt h0 h0 hc h0
  have bc3 : mc3 0 0 c 0 < 256 := mc3_lt h0 h0 hc h0
  have bd0 : mc0 0 0 0 d < 256 := mc0_lt h0 h0 h0 hd
  have bd1 : mc1 0 0 0 d < 256 := mc1_lt h0 h0 h0 hd
  have bd2 : mc2 0 0 0 d < 256 := mc2_lt h0 h0 h0 hd
  have bd3 : mc3 0 0 0 d < 256 := mc3_lt h0 h0 h0 hd
  have bcd0 : mc0 0 0 c 0 ^^^ mc0 0 0 0 d < 256 := xor_lt_256 bc0 bd0
  have bcd1 : mc1 0 0 c 0 ^^^ mc1 0 0 0 d < 256 := xor_lt_256 bc1 bd1
  have bcd2 : mc2 0 0 c 0 ^^^ mc2 0 0 0 d < 256 := xor_lt_256 bc2 bd2
  have bcd3 : mc3 0 0 c 0 ^^^ mc3 0 0 0 d < 256 := xor_lt_256 bc3 bd3
  have bbcd0 : mc0 0 b 0 0 ^^^ (mc0 0 0 c 0 ^^^ mc0 0 0 0 d) < 256 := xor_lt_256 bb0 bcd0
  have bbcd1 : mc1 0 b 0 0 ^^^ (mc1 0 0 c 0 ^^^ mc1 0 0 0 d) < 256 := xor_lt_256 bb1 bcd1
  have bbcd2 : mc2 0 b 0 0 ^^^ (mc2 0 0 c 0 ^^^ mc2 0 0 0 d) < 256 := xor_lt_256 bb2 bcd2
  have bbcd3 : mc3 0 b 0 0 ^^^ (mc3 0 0 c 0 ^^^ mc3 0 0 0 d) < 256 := xor_lt_256 bb3 bcd3
  obtain ⟨qa0, qa1, qa2, qa3⟩ := mixBasis0 a ha
  obtain ⟨qb0, qb1, qb2, qb3⟩ := mixBasis1 b hb
  obtain ⟨qc0, qc1, qc2, qc3⟩ := mixBasis2 c hc
  obtain ⟨qd0, qd1, qd2, qd3⟩ := mixBasis3 d hd
  refine ⟨?_, ?_, ?_, ?_⟩ <;> rw [e0, e1, e2, e3]
  · rw [im0_xor ba0 bbcd0 ba1 bbcd1 ba2 bbcd2 ba3 bbcd3,
      im0_xor bb0 bcd0 bb1 bcd1 bb2 bcd2 bb3 bcd3,
      im0_xor bc0 bd0 bc1 bd1 bc2 bd2 bc3 bd3, qa0, qb0, qc0, qd0]
    simp
  · rw [im1_xor ba0 bbcd0 ba1 bbcd1 ba2 bbcd2 ba3 bbcd3,
      im1_xor bb0 bcd0 bb1 bcd1 bb2 bcd2 bb3 bcd3,
      im1_xor bc0 bd0 bc1 bd1 bc2 bd2 bc3 bd3, qa1, qb1, qc1, qd1]
    simp
  · rw [im2_xor ba0 bbcd0 ba1 bbcd1 ba2 bbcd2 ba3 bbcd3,
      im2_xor bb0 bcd0 bb1 bcd1 bb2 bcd2 bb3 bcd3,
      im2_xor bc0 bd0 bc1 bd1 bc2 bd2 bc3 bd3, qa2, qb2, qc2, qd2]
    simp
  · rw [im3_xor ba0 bbcd0 ba1 bbcd1 ba2 bbcd2 ba3 bbcd3,
      im3_xor bb0 bcd0 bb1 bcd1 bb2 bcd2 bb3 bcd3,
      im3_xor bc0 bd0 bc1 bd1 bc2 bd2 bc3 bd3, qa3, qb3, qc3, qd3]
    simp

end Cown

namespace Cown

/-- AddRoundKey with the same key twice is the identity. -/
theorem addRoundKey_cancel (st k : AESState) : addRoundKey (addRoundKey st k) k = st := by
  simp [addRoundKey, Nat.xor_cancel_right]

/-- InvShiftRows undoes ShiftRows. -/
theorem invShiftRows_shiftRows (st : AESState) : invShiftRows (shiftRows st) = st := rfl

/-- InvSubBytes undoes SubBytes on bounded states. -/
theorem invSubBytes_subBytes {st : AESState} (h : BoundedState st) :
    invSubBytes (subBytes st) = st := by
  obtain ⟨h0, h1, h2, h3, h4, h5, h6, h7, h8, h9, h10, h11, h12, h13, h14, h15⟩ := h
  simp [subBytes, invSubBytes, invSbox_sbox, *]

/-- InvMixColumns undoes MixColumns on bounded states. -/
theorem invMixColumns_mixColumns {st : AESState} (h : BoundedState st) :
    invMixColumns (mixColumns st) = st := by
  obtain ⟨h0, h1, h2, h3, h4, h5, h6, h7, h8, h9, h10, h11, h12, h13, h14, h15⟩ := h
  obtain ⟨c00, c01, c02, c03⟩ := colInv h0 h1 h2 h3
  obtain ⟨c10, c11, c12, c13⟩ := colInv h4 h5 h6 h7
  obtain ⟨c20, c21, c22, c23⟩ := colInv h8 h9 h10 h11
  obtain ⟨c30, c31, c32, c33⟩ := colInv h12 h13 h14 h15
  simp [mixColumns, invMixColumns, AESState.mk.injEq, c00, c01, c02, c03, c10, c11, c12, c13,
    c20, c21, c22, c23, c30, c31, c32, c33]

/-- SubBytes preserves boundedness. -/
theorem boundedSubBytes {st : AESState} (h : BoundedState st) : BoundedState (subBytes st) := by
  obtain ⟨h0, h1, h2, h3, h4, h5, h6, h7, h8, h9, h10, h11, h12, h13, h14, h15⟩ := h
  exact ⟨sbox_lt h0, sbox_lt h1, sbox_lt h2, sbox_lt h3, sbox_lt h4, sbox_lt h5, sbox_lt h6,
    sbox_lt h7, sbox_lt h8, sbox_lt h9, sbox_lt h10, sbox_lt h11, sbox_lt h12, sbox_lt h13,
    sbox_lt h14, sbox_lt h15⟩

/-- ShiftRows preserves boundedness. -/
theorem boundedShiftRows {st : AESState} (h : BoundedState st) : BoundedState (shiftRows st) := by
  obtain ⟨h0, h1, h2, h3, h4, h5, h6, h7, h8, h9, h10, h11, h12, h13, h14, h15⟩ := h
  exact ⟨h0, h5, h10, h15, h4, h9, h14, h3, h8, h13, h2, h7, h12, h1, h6, h11⟩

/-- MixColumns preserves boundedness. -/
theorem boundedMixColumns {st : AESState} (h : BoundedState st) :
    BoundedState (mixColumns st) := by
  obtain ⟨h0, h1, h2, h3, h4, h5, h6, h7, h8, h9, h10, h11, h12, h13, h14, h15⟩ := h
  exact ⟨mc0_lt h0 h1 h2 h3, mc1_lt h0 h1 h2 h3, mc2_lt h0 h1 h2 h3, mc3_lt h0 h1 h2 h3,
    mc0_lt h4 h5 h6 h7, mc1_lt h4 h5 h6 h7, mc2_lt h4 h5 h6 h7, mc3_lt h4 h5 h6 h7,
    mc0_lt h8 h9 h10 h11, mc1_lt h8 h9 h10 h11, mc2_lt h8 h9 h10 h11, mc3_lt h8 h9 h10 h11,
    mc0_lt h12 h13 h14 h15, mc1_lt h12 h13 h14 h15, mc2_lt h12 h13 h14 h15,
    mc3_lt h12 h13 h14 h15⟩

/-- AddRoundKey preserves boundedness. -/
theorem boundedAddRoundKey {st k : AESState} (h : BoundedState st) (hk : BoundedState k) :
    BoundedState (addRoundKey st k) := by
  obtain ⟨h0, h1, h2, h3, h4, h5, h6, h7, h8, h9, h10, h11, h12, h13, h14, h15⟩ := h
  obtain ⟨k0, k1, k2, k3, k4, k5, k6, k7, k8, k9, k10, k11, k12, k13, k14, k15⟩ := hk
  exact ⟨xor_lt_256 h0 k0, xor_lt_256 h1 k1, xor_lt_256 h2 k2, xor_lt_256 h3 k3,
    xor_lt_256 h4 k4, xor_lt_256 h5 k5, xor_lt_256 h6 k6, xor_lt_256 h7 k7,
    xor_lt_256 h8 k8, xor_lt_256 h9 k9, xor_lt_256 h10 k10, xor_lt_256 h11 k11,
    xor_lt_256 h12 k12, xor_lt_256 h13 k13, xor_lt_256 h14 k14, xor_lt_256 h15 k15⟩

/-- One full decryption round undoes one full encryption round. -/
theorem decRound_encRound {st : AESState} (k : AESState) (h : BoundedState st) :
    decRound (encRound st k) k = st := by
  unfold encRound decRound
  rw [addRoundKey_cancel, invMixColumns_mixColumns (boundedShiftRows (boundedSubBytes h)),
    invShiftRows_shiftRows, invSubBytes_subBytes h]

/-- A full encryption round preserves boundedness when the round key is
bounded. -/
theorem boundedEncRound {st k : AESState} (h : BoundedState st) (hk : BoundedState k) :
    BoundedState (encRound st k) :=
  boundedAddRoundKey (boundedMixColumns (boundedShiftRows (boundedSubBytes h))) hk

/-- Bounded states stay bounded through the middle encryption rounds. -/
theorem boundedEncCore {mid : List AESState} {st : AESState} (h : BoundedState st)
    (hks : ∀ k ∈ mid, BoundedState k) : BoundedState (encCore mid st) := by
  induction mid generalizing st with
  | nil => exact h
  | cons k ks ih =>
    exact ih (boundedEncRound h (hks k (List.mem_cons_self k ks)))
      (fun k' hk' => hks k' (List.mem_cons_of_mem k hk'))

/-- Inverse rounds compose over list append. -/
theorem decCore_append (l1 l2 : List AESState) (st : AESState) :
    decCore (l1 ++ l2) st = decCore l2 (decCore l1 st) := by
  induction l1 generalizing st with
  | nil => rfl
  | cons k ks ih => simp [decCore, ih]

/-- The reversed inverse rounds undo the middle encryption rounds. -/
theorem decCore_encCore {mid : List AESState} {st : AESState} (h : BoundedState st)
    (hks : ∀ k ∈ mid, BoundedState k) : decCore mid.reverse (encCore mid st) = st := by
  induction mid generalizing st with
  | nil => rfl
  | cons k ks ih =>
    have hk : BoundedState k := hks k (List.mem_cons_self k ks)
    have hks' : ∀ k' ∈ ks, BoundedState k' := fun k' hk' => hks k' (List.mem_cons_of_mem k hk')
    calc decCore (k :: ks).reverse (encCore (k :: ks) st)
        = decCore (ks.reverse ++ [k]) (encCore ks (encRound st k)) := by
          simp [List.reverse_cons, encCore]
      _ = decCore [k] (decCore ks.reverse (encCore ks (encRound st k))) := by
          rw [decCore_append]
      _ = decCore [k] (encRound st k) := by rw [ih (boundedEncRound h hk) hks']
      _ = st := by simp [decCore, decRound_encRound k h]

/-- AES block decryption undoes AES block encryption at the state level. -/
theorem aesDecryptSt_aesEncryptSt {k0 klast : AESState} {mid : List AESState} {st : AESState}
    (h : BoundedState st) (hk0 : BoundedState k0) (hmid : ∀ k ∈ mid, BoundedState k) :
    aesDecryptSt k0 mid klast (aesEncryptSt k0 mid klast st) = st := by
  unfold aesEncryptSt aesDecryptSt
  rw [addRoundKey_cancel, invShiftRows_shiftRows,
    invSubBytes_subBytes (boundedEncCore (boundedAddRoundKey h hk0) hmid),
    decCore_encCore (boundedAddRoundKey h hk0) hmid, addRoundKey_cancel]

end Cown

namespace Cown

/-- XOR of two byte words is a byte word. -/
theorem bytes_xorWord {v w : List Nat} (hv : Bytes v) (hw : Bytes w) : Bytes (xorWord v w) := by
  induction v generalizing w with
  | nil => intro b hb; simp [xorWord] at hb
  | cons a l ih =>
    cases w with
    | nil => intro b hb; simp [xorWord] at hb
    | cons a' l' =>
      intro b hb
      simp only [xorWord, List.zipWith_cons_cons, List.mem_cons] at hb
      rcases hb with h | h
      · exact h ▸ xor_lt_256 (hv a (by simp)) (hw a' (by simp))
      · exact ih (fun x hx => hv x (by simp [hx])) (fun x hx => hw x (by simp [hx])) b h

/-- RotWord preserves byte words. -/
theorem bytes_rotWord {w : List Nat} (hw : Bytes w) : Bytes (rotWord w) := by
  unfold rotWord
  split
  · rename_i a b c d
    intro x hx
    simp only [List.mem_cons, List.not_mem_nil, or_false] at hx
    rcases hx with rfl | rfl | rfl | rfl <;> apply hw <;> simp
  · exact hw

/-- SubWord preserves byte words. -/
theorem bytes_subWord {w : List Nat} (hw : Bytes w) : Bytes (subWord w) := by
  intro b hb
  simp only [subWord, List.mem_map] at hb
  obtain ⟨a, ha, rfl⟩ := hb
  exact sbox_lt (hw a ha)

/-- Round constants are bytes. -/
theorem rconAux_lt (n : Nat) : rconAux n < 256 := by
  induction n with
  | zero => decide
  | succ n ih => exact xtime_lt ih

/-- The last word of a list of byte words is a byte word. -/
theorem bytes_getLastD (ws : List (List Nat)) (d : List Nat) (h : ∀ w ∈ ws, Bytes w)
    (hd : Bytes d) : Bytes (ws.getLastD d) := by
  induction ws generalizing d with
  | nil => exact hd
  | cons a l ih =>
    rw [List.getLastD_cons]
    exact ih a (fun w hw => h w (by simp [hw])) (h a (by simp))

/-- An indexed word of a list of byte words is a byte word. -/
theorem bytes_getD (ws : List (List Nat)) (i : Nat) (d : List Nat) (h : ∀ w ∈ ws, Bytes w)
    (hd : Bytes d) : Bytes (ws.getD i d) := by
  induction ws generalizing i with
  | nil => simpa [List.getD] using hd
  | cons a l ih =>
    cases i with
    | zero => exact h a (by simp)
    | succ n =>
      rw [List.getD_cons_succ]
      exact ih n (fun w hw => h w (by simp [hw]))

/-- The zero word is a byte word. -/
theorem bytes_zeroWord : Bytes [0, 0, 0, 0] := by decide

/-- The next key-schedule word of byte words is a byte word. -/
theorem bytes_nextWord {ws : List (List Nat)} (h : ∀ w ∈ ws, Bytes w) : Bytes (nextWord ws) := by
  unfold nextWord
  apply bytes_xorWord (bytes_getD ws _ _ h bytes_zeroWord)
  split
  · apply bytes_xorWord (bytes_subWord (bytes_rotWord (bytes_getLastD ws _ h bytes_zeroWord)))
    intro b hb
    simp only [List.mem_cons, List.not_mem_nil, or_false] at hb
    rcases hb with rfl | rfl | rfl | rfl
    · exact rconAux_lt _
    all_goals omega
  split
  · exact bytes_subWord (bytes_getLastD ws _ h bytes_zeroWord)
  · exact bytes_getLastD ws _ h bytes_zeroWord

/-- Key-schedule expansion preserves byte words. -/
theorem bytes_expandFrom {ws : List (List Nat)} (n : Nat) (h : ∀ w ∈ ws, Bytes w) :
    ∀ w ∈ expandFrom ws n, Bytes w := by
  induction n generalizing ws with
  | zero => exact h
  | succ n ih =>
    apply ih
    intro w hw
    rcases List.mem_append.mp hw with h' | h'
    · exact h w h'
    · simp only [List.mem_singleton] at h'
      exact h' ▸ bytes_nextWord h

/-- Chunking a byte string yields byte words. -/
theorem bytes_chunk4 {l : List Nat} (h : Bytes l) : ∀ w ∈ chunk4 l, Bytes w := by
  induction l using chunk4.induct with
  | case1 a b c d rest ih =>
    intro w hw
    simp only [chunk4, List.mem_cons] at hw
    rcases hw with rfl | hw
    · intro x hx
      simp only [List.mem_cons, List.not_mem_nil, or_false] at hx
      rcases hx with rfl | rfl | rfl | rfl <;> apply h <;> simp
    · exact ih (fun x hx => h x (by simp [hx])) w hw
  | case2 l hl =>
    rcases l with _ | ⟨a, _ | ⟨b, _ | ⟨c, _ | ⟨d, rest⟩⟩⟩⟩
    · intro w hw; simp [chunk4] at hw
    · intro w hw; simp [chunk4] at hw
    · intro w hw; simp [chunk4] at hw
    · intro w hw; simp [chunk4] at hw
    · exact absurd rfl (hl a b c d rest)

/-- Loading a byte string into a state gives a bounded state. -/
theorem toState_bounded {l : List Nat} (h : Bytes l) : BoundedState (toState l) := by
  unfold toState
  split
  · rename_i b0 b1 b2 b3 b4 b5 b6 b7 b8 b9 b10 b11 b12 b13 b14 b15
    refine ⟨?_, ?_, ?_, ?_, ?_, ?_, ?_, ?_, ?_, ?_, ?_, ?_, ?_, ?_, ?_, ?_⟩ <;>
      apply h <;> simp
  · decide

/-- Grouping byte words yields bounded round-key states. -/
theorem groupWords_bounded {ws : List (List Nat)} (h : ∀ w ∈ ws, Bytes w) :
    ∀ st ∈ groupWords ws, BoundedState st := by
  induction ws using groupWords.induct with
  | case1 w0 w1 w2 w3 rest ih =>
    intro st hst
    simp only [groupWords, List.mem_cons] at hst
    rcases hst with rfl | hst
    · apply toState_bounded
      intro b hb
      simp only [List.mem_append] at hb
      rcases hb with h' | h' | h' | h'
      · exact h w0 (by simp) b h'
      · exact h w1 (by simp) b h'
      · exact h w2 (by simp) b h'
      · exact h w3 (by simp) b h'
    · exact ih (fun w hw => h w (by simp [hw])) st hst
  | case2 ws hws =>
    rcases ws with _ | ⟨w0, _ | ⟨w1, _ | ⟨w2, _ | ⟨w3, rest⟩⟩⟩⟩
    · intro st hst; simp [groupWords] at hst
    · intro st hst; simp [groupWords] at hst
    · intro st hst; simp [groupWords] at hst
    · intro st hst; simp [groupWords] at hst
    · exact absurd rfl (hws w0 w1 w2 w3 rest)

/-- Round keys of a byte key are bounded. -/
theorem roundKeys_bounded {key : List Nat} (h : Bytes key) :
    ∀ st ∈ roundKeys key, BoundedState st :=
  groupWords_bounded (bytes_expandFrom 52 (bytes_chunk4 h))

/-- The zero state is bounded. -/
theorem boundedZeroState : BoundedState zeroState := by decide

end Cown

namespace Cown

/-- Serializing after loading returns the original 16 bytes. -/
theorem stateToList_toState {l : List Nat} (h : l.length = 16) : stateToList (toState l) = l := by
  obtain ⟨b0, l, rfl⟩ := List.exists_of_length_succ (n := 15) l (by omega)
  simp only [List.length_cons] at h
  obtain ⟨b1, l, rfl⟩ := List.exists_of_length_succ (n := 14) l (by omega)
  simp only [List.length_cons] at h
  obtain ⟨b2, l, rfl⟩ := List.exists_of_length_succ (n := 13) l (by omega)
  simp only [List.length_cons] at h
  obtain ⟨b3, l, rfl⟩ := List.exists_of_length_succ (n := 12) l (by omega)
  simp only [List.length_cons] at h
  obtain ⟨b4, l, rfl⟩ := List.exists_of_length_succ (n := 11) l (by omega)
  simp only [List.length_cons] at h
  obtain ⟨b5, l, rfl⟩ := List.exists_of_length_succ (n := 10) l (by omega)
  simp only [List.length_cons] at h
  obtain ⟨b6, l, rfl⟩ := List.exists_of_length_succ (n := 9) l (by omega)
  simp only [List.length_cons] at h
  obtain ⟨b7, l, rfl⟩ := List.exists_of_length_succ (n := 8) l (by omega)
  simp only [List.length_cons] at h
  obtain ⟨b8, l, rfl⟩ := List.exists_of_length_succ (n := 7) l (by omega)
  simp only [List.length_cons] at h
  obtain ⟨b9, l, rfl⟩ := List.exists_of_length_succ (n := 6) l (by omega)
  simp only [List.length_cons] at h
  obtain ⟨b10, l, rfl⟩ := List.exists_of_length_succ (n := 5) l (by omega)
  simp only [List.length_cons] at h
  obtain ⟨b11, l, rfl⟩ := List.exists_of_length_succ (n := 4) l (by omega)
  simp only [List.length_cons] at h
  obtain ⟨b12, l, rfl⟩ := List.exists_of_length_succ (n := 3) l (by omega)
  simp only [List.length_cons] at h
  obtain ⟨b13, l, rfl⟩ := List.exists_of_length_succ (n := 2) l (by omega)
  simp only [List.length_cons] at h
  obtain ⟨b14, l, rfl⟩ := List.exists_of_length_succ (n := 1) l (by omega)
  simp only [List.length_cons] at h
  obtain ⟨b15, l, rfl⟩ := List.exists_of_length_succ (n := 0) l (by omega)
  simp only [List.length_cons] at h
  obtain rfl : l = [] := List.length_eq_zero.mp (by omega)
  rfl

/-- Loading after serializing is the identity on states. -/
theorem toState_stateToList (st : AESState) : toState (stateToList st) = st := rfl

/-- Serialized states have 16 bytes. -/
theorem stateToList_length (st : AESState) : (stateToList st).length = 16 := rfl

/-- Serialized bounded states are byte strings. -/
theorem bytes_stateToList {st : AESState} (h : BoundedState st) : Bytes (stateToList st) := by
  obtain ⟨h0, h1, h2, h3, h4, h5, h6, h7, h8, h9, h10, h11, h12, h13, h14, h15⟩ := h
  intro b hb
  simp only [stateToList, List.mem_cons, List.not_mem_nil, or_false] at hb
  rcases hb with rfl | rfl | rfl | rfl | rfl | rfl | rfl | rfl | rfl | rfl | rfl | rfl | rfl |
    rfl | rfl | rfl <;> assumption

/-- The first round key of a byte key is bounded. -/
theorem boundedHeadKey {key : List Nat} (h : Bytes key) :
    BoundedState ((roundKeys key).headD zeroState) := by
  cases hk : roundKeys key with
  | nil => exact boundedZeroState
  | cons a l =>
    have ha : a ∈ roundKeys key := by rw [hk]; exact List.mem_cons_self a l
    exact roundKeys_bounded h a ha

/-- The middle round keys of a byte key are bounded. -/
theorem boundedMidKeys {key : List Nat} (h : Bytes key) :
    ∀ k ∈ ((roundKeys key).drop 1).dropLast, BoundedState k := fun k hk =>
  roundKeys_bounded h k (List.mem_of_mem_drop (List.dropLast_subset _ hk))

/-- AES block decryption undoes AES block encryption on 16-byte blocks. -/
theorem aesDecryptBlock_aesEncryptBlock {key b : List Nat} (hkey : Bytes key) (hb : Bytes b)
    (hlen : b.length = 16) : aesDecryptBlock key (aesEncryptBlock key b) = b := by
  simp only [aesEncryptBlock, aesDecryptBlock]
  rw [toState_stateToList,
    aesDecryptSt_aesEncryptSt (toState_bounded hb) (boundedHeadKey hkey) (boundedMidKeys hkey)]
  exact stateToList_toState hlen

/-- AES block encryption yields 16 bytes. -/
theorem aesEncryptBlock_length (key b : List Nat) : (aesEncryptBlock key b).length = 16 := rfl

/-- Bounded states stay bounded through block encryption. -/
theorem boundedAesEncryptSt {k0 klast : AESState} {mid : List AESState} {st : AESState}
    (h : BoundedState st) (hk0 : BoundedState k0) (hmid : ∀ k ∈ mid, BoundedState k)
    (hklast : BoundedState klast) : BoundedState (aesEncryptSt k0 mid klast st) :=
  boundedAddRoundKey
    (boundedShiftRows (boundedSubBytes (boundedEncCore (boundedAddRoundKey h hk0) hmid))) hklast

/-- The last round key of a byte key is bounded. -/
theorem boundedLastKey {key : List Nat} (h : Bytes key) :
    BoundedState ((roundKeys key).getLastD zeroState) := by
  cases hk : roundKeys key with
  | nil => exact boundedZeroState
  | cons a l =>
    apply roundKeys_bounded h
    rw [hk, List.getLastD_cons, List.getLastD_eq_getLast?]
    cases hg : l.getLast? with
    | none => simp
    | some x =>
      simp only [Option.getD_some]
      exact List.mem_cons_of_mem a (List.mem_of_mem_getLast? (Option.mem_def.mpr hg))

/-- AES block encryption of a byte block under a byte key yields bytes. -/
theorem bytes_aesEncryptBlock {key b : List Nat} (hkey : Bytes key) (hb : Bytes b) :
    Bytes (aesEncryptBlock key b) := by
  simp only [aesEncryptBlock]
  exact bytes_stateToList
    (boundedAesEncryptSt (toState_bounded hb) (boundedHeadKey hkey) (boundedMidKeys hkey)
      (boundedLastKey hkey))

end Cown

namespace Cown

/-- Destruct a 16-byte list into its elements. -/
theorem exists16 (l : List Nat) (h : l.length = 16) :
    ∃ b0 b1 b2 b3 b4 b5 b6 b7 b8 b9 b10 b11 b12 b13 b14 b15,
      l = [b0, b1, b2, b3, b4, b5, b6, b7, b8, b9, b10, b11, b12, b13, b14, b15] := by
  obtain ⟨b0, l, rfl⟩ := List.exists_of_length_succ (n := 15) l (by omega)
  simp only [List.length_cons] at h
  obtain ⟨b1, l, rfl⟩ := List.exists_of_length_succ (n := 14) l (by omega)
  simp only [List.length_cons] at h
  obtain ⟨b2, l, rfl⟩ := List.exists_of_length_succ (n := 13) l (by omega)
  simp only [List.length_cons] at h
  obtain ⟨b3, l, rfl⟩ := List.exists_of_length_succ (n := 12) l (by omega)
  simp only [List.length_cons] at h
  obtain ⟨b4, l, rfl⟩ := List.exists_of_length_succ (n := 11) l (by omega)
  simp only [List.length_cons] at h
  obtain ⟨b5, l, rfl⟩ := List.exists_of_length_succ (n := 10) l (by omega)
  simp only [List.length_cons] at h
  obtain ⟨b6, l, rfl⟩ := List.exists_of_length_succ (n := 9) l (by omega)
  simp only [List.length_cons] at h
  obtain ⟨b7, l, rfl⟩ := List.exists_of_length_succ (n := 8) l (by omega)
  simp only [List.length_cons] at h
  obtain ⟨b8, l, rfl⟩ := List.exists_of_length_succ (n := 7) l (by omega)
  simp only [List.length_cons] at h
  obtain ⟨b9, l, rfl⟩ := List.exists_of_length_succ (n := 6) l (by omega)
  simp only [List.length_cons] at h
  obtain ⟨b10, l, rfl⟩ := List.exists_of_length_succ (n := 5) l (by omega)
  simp only [List.length_cons] at h
  obtain ⟨b11, l, rfl⟩ := List.exists_of_length_succ (n := 4) l (by omega)
  simp only [List.length_cons] at h
  obtain ⟨b12, l, rfl⟩ := List.exists_of_length_succ (n := 3) l (by omega)
  simp only [List.length_cons] at h
  obtain ⟨b13, l, rfl⟩ := List.exists_of_length_succ (n := 2) l (by omega)
  simp only [List.length_cons] at h
  obtain ⟨b14, l, rfl⟩ := List.exists_of_length_succ (n := 1) l (by omega)
  simp only [List.length_cons] at h
  obtain ⟨b15, l, rfl⟩ := List.exists_of_length_succ (n := 0) l (by omega)
  simp only [List.length_cons] at h
  obtain rfl : l = [] := List.length_eq_zero.mp (by omega)
  exact ⟨b0, b1, b2, b3, b4, b5, b6, b7, b8, b9, b10, b11, b12, b13, b14, b15, rfl⟩

/-- A list with no 16-element prefix is shorter than 16. -/
theorem short_of_no16 {t : List Nat}
    (h : ∀ (b0 b1 b2 b3 b4 b5 b6 b7 b8 b9 b10 b11 b12 b13 b14 b15 : Nat) (rest : List Nat),
      t = b0 :: b1 :: b2 :: b3 :: b4 :: b5 :: b6 :: b7 :: b8 :: b9 :: b10 :: b11 :: b12 ::
        b13 :: b14 :: b15 :: rest → False) :
    t.length < 16 := by
  by_contra hlen
  push_neg at hlen
  have h16 : (t.take 16).length = 16 := by
    simp only [List.length_take]
    omega
  obtain ⟨b0, b1, b2, b3, b4, b5, b6, b7, b8, b9, b10, b11, b12, b13, b14, b15, heq⟩ :=
    exists16 _ h16
  apply h b0 b1 b2 b3 b4 b5 b6 b7 b8 b9 b10 b11 b12 b13 b14 b15 (t.drop 16)
  conv_lhs => rw [← List.take_append_drop 16 t, heq]
  simp

/-- XOR of byte strings yields bytes. -/
theorem bytes_xorBytes {v w : List Nat} (hv : Bytes v) (hw : Bytes w) : Bytes (xorBytes v w) :=
  bytes_xorWord hv hw

/-- Length of a bytewise XOR. -/
theorem xorBytes_length (v w : List Nat) : (xorBytes v w).length = min v.length w.length :=
  List.length_zipWith _ _ _

/-- XOR with the same mask twice is the identity on equal-length strings. -/
theorem xorBytes_cancel : ∀ (v w : List Nat), w.length ≤ v.length →
    xorBytes v (xorBytes v w) = w := by
  intro v
  induction v with
  | nil =>
    intro w hw
    obtain rfl : w = [] := by simpa using hw
    rfl
  | cons a l ih =>
    intro w hw
    cases w with
    | nil => rfl
    | cons b m =>
      simp only [xorBytes, List.zipWith_cons_cons, Nat.xor_cancel_left]
      exact congrArg _ (ih m (by simpa using hw))

/-- CBC encryption of a stream with no whole leading block is empty. -/
theorem cbcEncBytes_short {key prev t : List Nat} (h : t.length < 16) :
    cbcEncBytes key prev t = [] := by
  rcases t with _ | ⟨a0, _ | ⟨a1, _ | ⟨a2, _ | ⟨a3, _ | ⟨a4, _ | ⟨a5, _ | ⟨a6, _ | ⟨a7, _ | ⟨a8, _ | ⟨a9, _ | ⟨a10, _ | ⟨a11, _ | ⟨a12, _ | ⟨a13, _ | ⟨a14, _ | ⟨a15, _⟩⟩⟩⟩⟩⟩⟩⟩⟩⟩⟩⟩⟩⟩⟩⟩
  · rfl
  · rfl
  · rfl
  · rfl
  · rfl
  · rfl
  · rfl
  · rfl
  · rfl
  · rfl
  · rfl
  · rfl
  · rfl
  · rfl
  · rfl
  · rfl
  · simp only [List.length_cons] at h
    omega

/-- CBC encryption preserves stream length on whole-block streams. -/
theorem cbcEncBytes_length {key : List Nat} : ∀ (prev l : List Nat), 16 ∣ l.length →
    (cbcEncBytes key prev l).length = l.length := by
  intro prev l
  induction prev, l using cbcEncBytes.induct key with
  | case1 prev b0 b1 b2 b3 b4 b5 b6 b7 b8 b9 b10 b11 b12 b13 b14 b15 rest c ih =>
    intro hdvd
    simp only [cbcEncBytes, List.length_append, List.length_cons] at *
    rw [aesEncryptBlock_length, ih (by omega)]
    omega
  | case2 t prev hno =>
    intro hdvd
    have hshort := short_of_no16 hno
    have h0 : t.length = 0 := by omega
    obtain rfl : t = [] := List.length_eq_zero.mp h0
    rfl

/-- CBC encryption of a byte stream under a byte key yields bytes. -/
theorem bytes_cbcEncBytes {key : List Nat} (hkey : Bytes key) : ∀ (prev l : List Nat),
    Bytes prev → Bytes l → Bytes (cbcEncBytes key prev l) := by
  intro prev l
  induction prev, l using cbcEncBytes.induct key with
  | case1 prev b0 b1 b2 b3 b4 b5 b6 b7 b8 b9 b10 b11 b12 b13 b14 b15 rest c ih =>
    intro hprev hl
    have hblk : Bytes [b0, b1, b2, b3, b4, b5, b6, b7, b8, b9, b10, b11, b12, b13, b14, b15] := by
      intro x hx
      apply hl
      simp only [List.mem_cons, List.not_mem_nil, or_false] at hx
      rcases hx with rfl | rfl | rfl | rfl | rfl | rfl | rfl | rfl | rfl | rfl | rfl | rfl |
        rfl | rfl | rfl | rfl <;> simp
    have hc : Bytes (aesEncryptBlock key
        (xorBytes prev [b0, b1, b2, b3, b4, b5, b6, b7, b8, b9, b10, b11, b12, b13, b14, b15])) :=
      bytes_aesEncryptBlock hkey (bytes_xorBytes hprev hblk)
    simp only [cbcEncBytes]
    intro x hx
    rcases List.mem_append.mp hx with h' | h'
    · exact hc x h'
    · exact ih hc (fun y hy => hl y (by simp [hy])) x h'
  | case2 t prev hno =>
    intro hprev hl
    rw [cbcEncBytes_short (short_of_no16 hno)]
    intro x hx
    simp at hx

/-- CBC decryption undoes CBC encryption on whole-block byte streams. -/
theorem cbcDecBytes_cbcEncBytes {key : List Nat} (hkey : Bytes key) :
    ∀ (prev l : List Nat), Bytes prev → prev.length = 16 → Bytes l → 16 ∣ l.length →
      cbcDecBytes key prev (cbcEncBytes key prev l) = l := by
  intro prev l
  induction prev, l using cbcEncBytes.induct key with
  | case1 prev b0 b1 b2 b3 b4 b5 b6 b7 b8 b9 b10 b11 b12 b13 b14 b15 rest c ih =>
    intro hprev hplen hl hdvd
    have hblk : Bytes [b0, b1, b2, b3, b4, b5, b6, b7, b8, b9, b10, b11, b12, b13, b14, b15] := by
      intro x hx
      apply hl
      simp only [List.mem_cons, List.not_mem_nil, or_false] at hx
      rcases hx with rfl | rfl | rfl | rfl | rfl | rfl | rfl | rfl | rfl | rfl | rfl | rfl |
        rfl | rfl | rfl | rfl <;> simp
    have hxblk : Bytes (xorBytes prev
        [b0, b1, b2, b3, b4, b5, b6, b7, b8, b9, b10, b11, b12, b13, b14, b15]) :=
      bytes_xorBytes hprev hblk
    have hxlen : (xorBytes prev
        [b0, b1, b2, b3, b4, b5, b6, b7, b8, b9, b10, b11, b12, b13, b14, b15]).length = 16 := by
      rw [xorBytes_length, hplen]
      rfl
    have hc : Bytes (aesEncryptBlock key (xorBytes prev
        [b0, b1, b2, b3, b4, b5, b6, b7, b8, b9, b10, b11, b12, b13, b14, b15])) :=
      bytes_aesEncryptBlock hkey hxblk
    have ihB : cbcDecBytes key
        (aesEncryptBlock key (xorBytes prev
          [b0, b1, b2, b3, b4, b5, b6, b7, b8, b9, b10, b11, b12, b13, b14, b15]))
        (cbcEncBytes key
          (aesEncryptBlock key (xorBytes prev
            [b0, b1, b2, b3, b4, b5, b6, b7, b8, b9, b10, b11, b12, b13, b14, b15])) rest) =
        rest := by
      apply ih hc (aesEncryptBlock_length _ _) (fun y hy => hl y (by simp [hy]))
      simp only [List.length_cons] at hdvd
      omega
    obtain ⟨c0, c1, c2, c3, c4, c5, c6, c7, c8, c9, c10, c11, c12, c13, c14, c15, hceq⟩ :=
      exists16 (aesEncryptBlock key (xorBytes prev
        [b0, b1, b2, b3, b4, b5, b6, b7, b8, b9, b10, b11, b12, b13, b14, b15]))
        (aesEncryptBlock_length _ _)
    simp only [cbcEncBytes]
    rw [hceq]
    simp only [List.cons_append, List.append_eq, List.nil_append, cbcDecBytes]
    rw [← hceq, aesDecryptBlock_aesEncryptBlock hkey hxblk hxlen,
      xorBytes_cancel prev [b0, b1, b2, b3, b4, b5, b6, b7, b8, b9, b10, b11, b12, b13, b14, b15]
        (by rw [hplen]; simp), ihB]
    rfl
  | case2 t prev hno =>
    intro hprev hplen hl hdvd
    have hshort := short_of_no16 hno
    have h0 : t.length = 0 := by omega
    obtain rfl : t = [] := List.length_eq_zero.mp h0
    rfl

end Cown

namespace Cown

/-- Padding length arithmetic. -/
theorem pkcs7pad_length (l : List Nat) :
    (pkcs7pad l).length = l.length + (16 - l.length % 16) := by
  simp [pkcs7pad]

theorem pkcs7pad_dvd (l : List Nat) : 16 ∣ (pkcs7pad l).length := by
  rw [pkcs7pad_length]
  omega

theorem bytes_pkcs7pad {l : List Nat} (h : Bytes l) : Bytes (pkcs7pad l) := by
  intro b hb
  simp only [pkcs7pad, List.mem_append, List.mem_replicate] at hb
  rcases hb with hb | ⟨_, rfl⟩
  · exact h b hb
  · omega

theorem pkcs7unpad_pkcs7pad (l : List Nat) : pkcs7unpad (pkcs7pad l) = some l := by
  have hm : l.length % 16 < 16 := Nat.mod_lt _ (by omega)
  have hp1 : 1 ≤ 16 - l.length % 16 := by omega
  have hlast : (pkcs7pad l).getLast? = some (16 - l.length % 16) := by
    rw [pkcs7pad, List.getLast?_append, List.getLast?_replicate]
    simp only [if_neg (by omega : ¬(16 - l.length % 16 = 0))]
    rfl
  rw [pkcs7unpad, hlast]
  dsimp only
  have hlen : (pkcs7pad l).length = l.length + (16 - l.length % 16) := pkcs7pad_length l
  rw [if_pos]
  · rw [hlen]
    congr 1
    have : l.length + (16 - l.length % 16) - (16 - l.length % 16) = l.length := by omega
    rw [this, pkcs7pad]
    exact List.take_left' rfl
  · refine ⟨hp1, by omega, by rw [hlen]; omega, ?_⟩
    rw [hlen]
    have : l.length + (16 - l.length % 16) - (16 - l.length % 16) = l.length := by omega
    rw [this, pkcs7pad, List.drop_left' rfl]
    simp

/-- Hex digit roundtrip for values below 16. -/
theorem hexDigitVal_hexDigit : ∀ n < 16, hexDigitVal (hexDigit n) = some n := by decide

theorem hexDecode_hexEncode : ∀ {l : List Nat}, Bytes l → hexDecode (hexEncode l) = l := by
  intro l
  induction l with
  | nil => intro _; rfl
  | cons b rest ih =>
    intro h
    have hb : b < 256 := h b (by simp)
    have h1 : b / 16 < 16 := by omega
    have h2 : b % 16 < 16 := by omega
    simp only [hexEncode, hexDecode, hexDigitVal_hexDigit _ h1, hexDigitVal_hexDigit _ h2]
    rw [ih (fun x hx => h x (by simp [hx]))]
    congr 1
    omega

theorem hexEncode_length (l : List Nat) : (hexEncode l).length = 2 * l.length := by
  induction l with
  | nil => rfl
  | cons b rest ih => simp [hexEncode, ih]; omega

theorem hexDigit_ne_colon (n : Nat) : hexDigit n ≠ ':' := by
  unfold hexDigit
  by_cases h : n < 10
  · rw [if_pos h]
    interval_cases n <;> decide
  · rw [if_neg h]
    have hm : n % 16 < 16 := Nat.mod_lt _ (by omega)
    set m := n % 16 with hmdef
    clear_value m
    interval_cases m <;> decide

theorem hexEncode_ne_colon {l : List Nat} : ∀ c ∈ hexEncode l, c ≠ ':' := by
  induction l with
  | nil => intro c hc; simp [hexEncode] at hc
  | cons b rest ih =>
    intro c hc
    simp only [hexEncode, List.mem_cons] at hc
    rcases hc with rfl | rfl | hc
    · exact hexDigit_ne_colon _
    · exact hexDigit_ne_colon _
    · exact ih c hc

/-- The split of a colon-free list is the singleton of that list. -/
theorem splitColon_no_colon : ∀ {l : List Char}, (∀ c ∈ l, c ≠ ':') → splitColon l = [l] := by
  intro l
  induction l with
  | nil => intro _; rfl
  | cons c rest ih =>
    intro h
    simp only [splitColon, if_neg (h c (by simp))]
    rw [ih (fun x hx => h x (by simp [hx]))]

/-- Splitting at the first colon after a colon-free head. -/
theorem splitColon_append {l r : List Char} (h : ∀ c ∈ l, c ≠ ':') :
    splitColon (l ++ ':' :: r) = l :: splitColon r := by
  induction l with
  | nil => simp [splitColon]
  | cons c rest ih =>
    simp only [List.cons_append, splitColon, if_neg (h c (by simp)), List.append_eq]
    rw [ih (fun x hx => h x (by simp [hx]))]

theorem joinColon_single (l : List Char) : joinColon [l] = l := rfl


/-- C5: for all plaintexts P and keys K (with a fresh random IV), decrypting
the result of encrypting P under K with the same key K returns exactly P:
`decryptField(encryptField(P, K), K) = P`. -/
theorem decryptField_encryptField {data key iv : List Nat} (hkey : Bytes key) (hklen : key.length = 32)
    (hiv : Bytes iv) (hivlen : iv.length = 16) (hdata : Bytes data) :
    Option.bind (encryptField data key iv) (fun c => decryptField c key) = some data := by
  have hct : Bytes (cbcEncBytes key iv (pkcs7pad data)) :=
    bytes_cbcEncBytes hkey iv _ hiv (bytes_pkcs7pad hdata)
  have hctlen : (cbcEncBytes key iv (pkcs7pad data)).length = (pkcs7pad data).length :=
    cbcEncBytes_length iv _ (pkcs7pad_dvd data)
  rw [encryptField, if_pos ⟨hklen, hivlen⟩, Option.some_bind]
  rw [decryptField]
  dsimp only
  rw [splitColon_append hexEncode_ne_colon, splitColon_no_colon hexEncode_ne_colon]
  dsimp only [joinColon]
  rw [hexDecode_hexEncode hiv, hexDecode_hexEncode hct]
  rw [if_pos ⟨hklen, hivlen⟩,
    if_pos (by rw [hctlen]; exact Nat.mod_eq_zero_of_dvd (pkcs7pad_dvd data))]
  rw [cbcDecBytes_cbcEncBytes hkey iv _ hiv hivlen (bytes_pkcs7pad hdata) (pkcs7pad_dvd data)]
  exact pkcs7unpad_pkcs7pad data


end Cown

namespace Cown

/-- A nonzero numeric credential is not falsy. -/
theorem isFalsyNum_some_ne {uid : Nat} (h : uid ≠ 0) : isFalsyNum (some uid) = false := by
  cases uid with
  | zero => exact absurd rfl h
  | succ n => rfl

/-- A nonempty string credential is not falsy. -/
theorem isFalsyStr_some_ne {sid : String} (h : sid ≠ "") : isFalsyStr (some sid) = false := by
  simp [isFalsyStr, h]

/-- C1 (code_bug): when every session-store read throws (store unreachable),
`verifySession` reports `true` and the Access Guard lets the request proceed
as authenticated; it never returns the `DENIED(AuthServiceError)` the
specification requires — the guard fails open. -/
theorem requireAuth_storeOutage_allows :
    requireAuth unavailableStore (some 1) (some "token") =
      ⟨AuthOutcome.proceed 1 "token", [1], [], false⟩ := rfl

/-- C4 (amended): when the check of an existing session record fails (cached
token differs from the presented one), the guard denies with
`SESSION_INVALID` and destroys only the request-local session; it issues no
Session Store delete, so the store is unchanged and a subsequent direct get
for the same key still returns the record. -/
theorem requireAuth_failedCheck_noStoreDelete {store : RedisStore} {uid : Nat} {sid : String}
    (d : SessionData) (hrec : store uid = StoreResult.hit d) (hne : d.session_id ≠ sid)
    (huid : uid ≠ 0) (hsid : sid ≠ "") :
    (requireAuth store (some uid) (some sid)).outcome =
      AuthOutcome.denied 401 "SESSION_INVALID" ∧
    (requireAuth store (some uid) (some sid)).localSessionDestroyed = true ∧
    (requireAuth store (some uid) (some sid)).storeDeletes = [] ∧
    ∀ k, storeAfter store (requireAuth store (some uid) (some sid)) k = store k := by
  have hv : verifySession store uid sid = false := by
    simp [verifySession, hrec, hne]
  simp [requireAuth, isFalsyNum_some_ne huid, isFalsyStr_some_ne hsid, hv, storeAfter]

/-- Witness for C4: concrete store holding token-A for account 1, checked
against the token token-B. -/
theorem requireAuth_failedCheck_noStoreDelete_witness :
    (requireAuth exStore (some 1) (some "token-B")).outcome =
      AuthOutcome.denied 401 "SESSION_INVALID" ∧
    (requireAuth exStore (some 1) (some "token-B")).localSessionDestroyed = true ∧
    (requireAuth exStore (some 1) (some "token-B")).storeDeletes = [] ∧
    ∀ k, storeAfter exStore (requireAuth exStore (some 1) (some "token-B")) k = exStore k :=
  requireAuth_failedCheck_noStoreDelete ⟨"token-A", "authkey-A"⟩ (by decide) (by decide)
    (by decide) (by decide)

/-- C4 (counterexample to the claim as stated): after the failed check the
record is still in the store — a direct get returns a hit, not the miss the
claim promises. -/
theorem requireAuth_failedCheck_keepsRecord :
    (requireAuth exStore (some 1) (some "token-B")).outcome =
      AuthOutcome.denied 401 "SESSION_INVALID" ∧
    storeAfter exStore (requireAuth exStore (some 1) (some "token-B")) 1 =
      StoreResult.hit ⟨"token-A", "authkey-A"⟩ ∧
    storeAfter exStore (requireAuth exStore (some 1) (some "token-B")) 1 ≠
      StoreResult.miss := by
  refine ⟨by decide, by decide, by decide⟩

/-- C7: a session record is reachable only through its owning account id;
presenting a token issued for account A together with a different account
B's id is denied, because the guard looks up `session:B` and compares the
cached token, which (tokens being unique) cannot equal A's token. -/
theorem requireAuth_sessionIsolation {contents : Nat → Option SessionData} {A B : Nat}
    {T : String} {dA : SessionData} (hA : contents A = some dA) (hT : dA.session_id = T)
    (hAB : A ≠ B) (hB : ∀ d, contents B = some d → d.session_id ≠ T) (hBnz : B ≠ 0)
    (hTne : T ≠ "") :
    (requireAuth (storeOfContents contents) (some B) (some T)).outcome =
      AuthOutcome.denied 401 "SESSION_INVALID" := by
  have hv : verifySession (storeOfContents contents) B T = false := by
    cases hcb : contents B with
    | none => simp [verifySession, storeOfContents, hcb]
    | some d => simp [verifySession, storeOfContents, hcb, hB d hcb]
  simp [requireAuth, isFalsyNum_some_ne hBnz, isFalsyStr_some_ne hTne, hv]

/-- Witness for C7: a token issued for account 1, presented with account 2's
id, is denied. -/
theorem requireAuth_sessionIsolation_witness :
    (requireAuth (storeOfContents exSessionContents) (some 2) (some "token-A")).outcome =
      AuthOutcome.denied 401 "SESSION_INVALID" :=
  @requireAuth_sessionIsolation exSessionContents 1 2 "token-A" ⟨"token-A", "authkey-A"⟩
    (by decide) (by decide) (by decide) (by intro d h; simp [exSessionContents] at h)
    (by decide) (by decide)

/-- C9: when either credential is missing (or JavaScript-falsy) the guard
answers 401 `AUTH_REQUIRED` immediately: no session-store key is read or
deleted and the local session is untouched. -/
theorem requireAuth_missingCredentials {store : RedisStore} {uid : Option Nat}
    {sid : Option String} (h : isFalsyNum uid = true ∨ isFalsyStr sid = true) :
    requireAuth store uid sid = ⟨AuthOutcome.denied 401 "AUTH_REQUIRED", [], [], false⟩ := by
  rcases h with h | h <;> simp [requireAuth, h]

/-- Witness for C9: a request with no session id at all. -/
theorem requireAuth_missingCredentials_witness :
    requireAuth exStore (some 1) none =
      ⟨AuthOutcome.denied 401 "AUTH_REQUIRED", [], [], false⟩ :=
  requireAuth_missingCredentials (Or.inr rfl)

end Cown

namespace Cown

/-- Equation form of a successful `encryptField`. -/
theorem encryptField_eq {data key iv : List Nat} (hk : key.length = 32) (hiv : iv.length = 16) :
    encryptField data key iv =
      some (String.mk (hexEncode iv ++ ':' :: hexEncode (cbcEncBytes key iv (pkcs7pad data)))) := by
  rw [encryptField, if_pos ⟨hk, hiv⟩]

/-- With well-sized key and IVs, `encryptUserData` succeeds and carries the
email through in plaintext. -/
theorem encryptUserData_some (input : RegInput) {encKey ivF ivL ivP : List Nat}
    (hk : encKey.length = 32) (hF : ivF.length = 16) (hL : ivL.length = 16)
    (hP : ivP.length = 16) :
    ∃ e, encryptUserData input encKey ivF ivL ivP = some e ∧ e.email = input.email := by
  cases hph : input.phone with
  | none =>
    rw [encryptUserData, encryptField_eq hk hF, encryptField_eq hk hL, hph]
    simp only [Option.some_bind]
    exact ⟨_, rfl, rfl⟩
  | some p =>
    rw [encryptUserData, encryptField_eq hk hF, encryptField_eq hk hL, hph]
    simp only [Option.some_bind]
    rw [encryptField_eq hk hP]
    simp only [Option.map_some', Option.some_bind]
    exact ⟨_, rfl, rfl⟩

/-- C10 (implicit): when the MySQL insert fails, `register` swallows the
storage error and reports success with the fabricated id
`Math.floor(Math.random() * 10000)` — a value in `0..9999` that belongs to
no persisted account (the recreated users table is left empty). -/
theorem register_insertFailure_fabricatesId (db : MySQLDB) (input : RegInput)
    (ctx : RegContext) (hk : ctx.encKey.length = 32) (hF : ctx.ivF.length = 16)
    (hL : ctx.ivL.length = 16) (hP : ctx.ivP.length = 16) (hfail : ctx.insertFails = true)
    (hdum : ctx.dummyId < 10000) :
    (register db input ctx).fst = RegisterResult.ok ctx.dummyId ctx.sessionId ∧
    ctx.dummyId ≤ 9999 ∧ (register db input ctx).snd.users = [] := by
  obtain ⟨e, he, hemail⟩ := encryptUserData_some input hk hF hL hP
  rw [register, he]
  simp [storeUserInMySQL, hfail]
  omega

/-- Witness for C10: a concrete failing insert with random draw 7. -/
theorem register_insertFailure_fabricatesId_witness :
    (register exDB exRegInput
        ⟨List.range 32, List.range 16, List.range 16, List.range 16, "newhash", "sess-1",
          "ak-1", true, 7⟩).fst = RegisterResult.ok 7 "sess-1" ∧
    (7 : Nat) ≤ 9999 ∧
    (register exDB exRegInput
        ⟨List.range 32, List.range 16, List.range 16, List.range 16, "newhash", "sess-1",
          "ak-1", true, 7⟩).snd.users = [] :=
  register_insertFailure_fabricatesId exDB exRegInput _ (by decide) (by decide) (by decide)
    (by decide) rfl (by decide)

/-- C3 (code_bug): registering with an email that already belongs to a stored
account does not fail with `DuplicateEmail` — `storeUserInMySQL` drops and
recreates the `users` table, so the call succeeds (new id 1) and the
previously stored account (password hash `oldhash`) is destroyed; only the
new row (password hash `newhash`) remains. -/
theorem register_duplicateEmail_destroysAccounts :
    register exDB exRegInput exCtx =
      (RegisterResult.ok 1 "sess-1",
        ⟨[⟨1, "a@x.com", "newhash", none, none, none, none, none, none⟩]⟩) := rfl

end Cown

namespace Cown

/-- Witness for C5: round-trip of the plaintext "Alice" under a concrete key
and IV. -/
theorem decryptField_encryptField_witness :
    Option.bind (encryptField (strToBytes "Alice") (List.range 32) (List.range 16))
      (fun c => decryptField c (List.range 32)) = some (strToBytes "Alice") :=
  decryptField_encryptField (by decide) (by decide) (by decide) (by decide) (by decide)

/-- C6: the ciphertext embeds the random IV in its hex prefix, so two calls
of `encryptField` on the same plaintext and key with distinct IV draws
always produce different ciphertexts. -/
theorem encryptField_iv_injective {data key iv1 iv2 : List Nat} (hklen : key.length = 32)
    (hiv1 : Bytes iv1) (hlen1 : iv1.length = 16) (hiv2 : Bytes iv2) (hlen2 : iv2.length = 16)
    (hne : iv1 ≠ iv2) :
    encryptField data key iv1 ≠ encryptField data key iv2 := by
  rw [encryptField_eq hklen hlen1, encryptField_eq hklen hlen2]
  intro h
  apply hne
  have h2 := Option.some.inj h
  have h3 : hexEncode iv1 ++ ':' :: hexEncode (cbcEncBytes key iv1 (pkcs7pad data)) =
      hexEncode iv2 ++ ':' :: hexEncode (cbcEncBytes key iv2 (pkcs7pad data)) :=
    congrArg String.data h2
  have hlenseq : (hexEncode iv1).length = (hexEncode iv2).length := by
    rw [hexEncode_length, hexEncode_length, hlen1, hlen2]
  have h4 := (List.append_inj h3 hlenseq).1
  have h5 := congrArg hexDecode h4
  rwa [hexDecode_hexEncode hiv1, hexDecode_hexEncode hiv2] at h5

/-- Witness for C6: two concrete IV draws differing in one bit yield
different ciphertexts for the same plaintext and key. -/
theorem encryptField_iv_injective_witness :
    encryptField (strToBytes "Alice") (List.range 32) (List.range 16) ≠
      encryptField (strToBytes "Alice") (List.range 32) (1 :: List.drop 1 (List.range 16)) :=
  encryptField_iv_injective (by decide) (by decide) (by decide) (by decide) (by decide)
    (by decide)

/-- Every ciphertext `encryptField` produces contains a colon separator
(between the IV hex and the body hex); a stored plaintext value without a
colon therefore cannot be an `encryptField` ciphertext. -/
theorem encryptField_has_colon {data key iv : List Nat} {c : String}
    (h : encryptField data key iv = some c) : ':' ∈ c.data := by
  unfold encryptField at h
  split at h
  · cases Option.some.inj h
    simp
  · exact absurd h (by simp)

/-- C2 (code_bug): the field cipher does not authenticate its ciphertext.
Flipping the lowest bit of the first IV byte of a valid ciphertext of
"Alice" yields a tampered ciphertext that `decryptField` accepts, returning
"@lice" — a plaintext different from the original — instead of failing with
`IntegrityCheckFailed`. -/
theorem decryptField_tampered_wrong_plaintext :
    exTamperedCipher ≠ exCipher ∧
    decryptField exTamperedCipher exKey = some exGarbled ∧
    exGarbled ≠ exPlain := by
  refine ⟨by decide, by decide, by decide⟩

end Cown

namespace Cown

/-- Reading a row after the head column. -/
theorem getField_cons (k0 v0 k : String) (rest : List (String × String)) :
    getField ((k0, v0) :: rest) k = if k0 = k then some v0 else getField rest k := by
  by_cases h : k0 = k
  · simp [getField, h]
  · simp [getField, h]

/-- Setting a column then reading it returns the new value. -/
theorem getField_setField_same (rec : List (String × String)) (k v : String) :
    getField (setField rec k v) k = some v := by
  induction rec with
  | nil => simp [setField, getField]
  | cons kv rest ih =>
    obtain ⟨k0, v0⟩ := kv
    by_cases h : k0 = k
    · subst h
      simp [setField, getField]
    · rw [setField, if_neg h, getField_cons, if_neg h, ih]

/-- Setting one column leaves every other column unchanged. -/
theorem getField_setField_other (rec : List (String × String)) {k' k : String} (v : String)
    (h : k' ≠ k) : getField (setField rec k' v) k = getField rec k := by
  induction rec with
  | nil => simp [setField, getField, h]
  | cons kv rest ih =>
    obtain ⟨k0, v0⟩ := kv
    by_cases h0 : k0 = k'
    · subst h0
      rw [setField, if_pos rfl, getField_cons, if_neg h, getField_cons, if_neg h]
    · rw [setField, if_neg h0, getField_cons, getField_cons, ih]

/-- C8 (amended): `updateProfile` stores each supplied allow-listed field
exactly as supplied — in plaintext, with no re-encryption — and leaves the
account's `encryption_key` column untouched (so in particular it never
rotates the key). -/
theorem updateProfile_plaintext_noKeyTouch (rec : List (String × String)) (k v now : String)
    (hk : k ∈ allowedFields) :
    getField (updateProfile rec [(k, v)] now) k = some v ∧
    getField (updateProfile rec [(k, v)] now) "encryption_key" =
      getField rec "encryption_key" := by
  have hcont : allowedFields.contains k = true := List.elem_eq_true_of_mem hk
  have hfacts : k ≠ "updatedAt" ∧ "encryption_key" ≠ k ∧ (k != "id") = true ∧
      (k != "password_hash") = true := by
    simp only [allowedFields, List.mem_cons, List.not_mem_nil, or_false] at hk
    rcases hk with rfl | rfl | rfl | rfl | rfl | rfl | rfl <;>
      exact ⟨by decide, by decide, by decide, by decide⟩
  obtain ⟨h1, h2, h3, h4⟩ := hfacts
  have hform : updateProfile rec [(k, v)] now = setField (setField rec k v) "updatedAt" now := by
    simp [updateProfile, repoUpdate, applySets, List.filter, hcont, h3, h4, hk]
  rw [hform]
  constructor
  · rw [getField_setField_other _ _ (fun he => h1 he.symm), getField_setField_same]
  · rw [getField_setField_other _ _ (by decide), getField_setField_other _ _ (Ne.symm h2)]

end Cown

namespace Cown

/-- Witness for C8: updating `firstName` on a concrete row. -/
theorem updateProfile_plaintext_noKeyTouch_witness :
    getField (updateProfile exProfileRow [("firstName", "Alice")] "2026-02-03") "firstName" =
      some "Alice" ∧
    getField (updateProfile exProfileRow [("firstName", "Alice")] "2026-02-03")
      "encryption_key" = getField exProfileRow "encryption_key" :=
  updateProfile_plaintext_noKeyTouch exProfileRow "firstName" "Alice" "2026-02-03" (by decide)

/-- C8 (counterexample to the claim as stated): the value stored for
`firstName` is the supplied plaintext "Alice" itself, which contains no
colon — so it is not a ciphertext of the field cipher (every `encryptField`
output contains the `':'` separator, see `encryptField_has_colon`); nothing
was re-encrypted under the account's key. -/
theorem updateProfile_stores_plaintext :
    getField (updateProfile exProfileRow [("firstName", "Alice")] "2026-02-03") "firstName" =
      some "Alice" ∧
    ("Alice".data.all (fun c => c != ':')) = true := by
  refine ⟨by decide, by decide⟩

end Cown
